import Mathlib

set_option maxRecDepth 8000

/-!
Verification of pyhaml's compiler core (src/pyhaml/parser.py) against its
natural-language specification.  The Python source is shallowly embedded:
the instruction list (`HamlCall`), the peephole emitter (`HamlObj.call`),
the inline-expression splicer (`HamlObj.convert_inline_python`), the node
variants with their `open`/`close` behaviour, the indentation stack
controller (`HamlObj.begin` / `HamlObj.end`), the end-of-input flush
(`p_haml_doc`), a few parse actions, and the doctype table.  Mutable
parser state becomes an explicit `PState` record threaded through
`Except`-valued state transformers; a ghost trace of lifecycle and write
events is recorded alongside the real effects so that lifecycle claims
can be stated without changing any observable behaviour.
-/

/-- Errors raised by the compiler core.  `nodeErr` is the
`HamlParserException, (posinfo[0], posinfo[1], msg)` raised by
`HamlObj.error`; `parseErr` is the `HamlParserException,
(p.lineno(0), p.lexpos(0), msg)` raised inside parse actions; `keyErr`
models the Python `KeyError` that a failed `doctypes[...][...]` lookup
would raise. -/
inductive Err where
  | nodeErr (lineno : Nat) (text : String) (msg : String)
  | parseErr (lineno : Nat) (lexpos : Nat) (msg : String)
  | keyErr (key : String)
  | fuelOut
deriving DecidableEq

/-- One compiled Python statement (class `HamlCall`, parser.py lines
42-80).  `haml` holds the id of the `HamlObj` that created the call,
`depth` the emission depth (`parser.depth` at emission time), `func` and
`args` the `_haml.func(args...)` call, and `script` the raw script line
when `func` is `None`. -/
structure HamlCall where
  haml : Option Nat := none
  depth : Int := 0
  func : Option String := none
  args : List String := []
  script : String := ""
deriving DecidableEq

/-- The peephole emitter `HamlObj.call` (parser.py lines 128-145), as a
pure function on the growing instruction list `src`.  The Python code
inspects `src[-1]`; appending a `detab` right after an `entab` of the
same depth pops the `entab`, appending a `write` right after a `write`
of the same depth extends the previous write's argument list, and
everything else is appended unchanged. -/
def emitCall (src : List HamlCall) (next : HamlCall) : List HamlCall :=
  match src.getLast? with
  | none => src ++ [next]
  | some last =>
    if last.depth = next.depth then
      if next.func = some "detab" ∧ last.func = some "entab" then
        src.dropLast
      else if next.func = some "write" ∧ next.func = last.func then
        src.dropLast ++ [{ last with args := last.args ++ next.args }]
      else
        src ++ [next]
    else
      src ++ [next]

/-- Head test used to embed two-character searches on character lists. -/
def headIs (s : List Char) (c : Char) : Bool :=
  match s with
  | [] => false
  | d :: _ => d = c

/-- Whether the two-character marker `@{` occurs in the text (the
question `s.find("@{") == -1` asks, parser.py line 195). -/
def hasMarker : List Char → Bool
  | [] => false
  | c :: r => if c = '@' ∧ headIs r '\x7b' then true else hasMarker r

/-- Index of the first occurrence of the marker `@{`, embedding
`s.find("@{")` (parser.py line 195); `none` stands for `-1`. -/
def findMarker : List Char → Option Nat
  | [] => none
  | c :: r =>
    if c = '@' ∧ headIs r '\x7b' then some 0
    else (findMarker r).map (· + 1)

/-- The `%`-escaping done by `add_literal` (parser.py line 170):
`lit.replace("%", "%%")`. -/
def escapePercent : List Char → List Char
  | [] => []
  | c :: r => if c = '%' then '%' :: '%' :: escapePercent r else c :: escapePercent r

/-- Embeds `fmt.replace('%%', '%')` (parser.py line 215). -/
def unescapePercent : List Char → List Char
  | '%' :: '%' :: r => '%' :: unescapePercent r
  | c :: r => c :: unescapePercent r
  | [] => []

/-- The backslash-counting loop helper: counts consecutive backslashes at
indices `j, j-1, ..., 1` of `s` (index `0` is never examined, exactly as
in `for i in xrange(open_index - 1, 0, -1)`, parser.py line 200). -/
def bsCountAux (s : List Char) : Nat → Nat
  | 0 => 0
  | j + 1 => if s.getD (j + 1) ' ' = '\\' then bsCountAux s j + 1 else 0

/-- Number of backslashes counted by the loop at parser.py lines 199-204
for a marker found at index `oi`: the loop runs `i` from `oi - 1` down
to `1`. -/
def bsCount (s : List Char) (oi : Nat) : Nat :=
  match oi with
  | 0 => 0
  | k + 1 => bsCountAux s k

/-- Whether the text contains a `}` at brace-nesting depth 0, starting
from nesting level `level`: the independent statement of the condition
under which `read_script` finds its terminator. -/
def hasClose0 : Nat → List Char → Bool
  | _, [] => false
  | level, c :: r =>
    if c = '\x7b' then hasClose0 (level + 1) r
    else if c = '\x7d' then (if level = 0 then true else hasClose0 (level - 1) r)
    else hasClose0 level r

/-- Modelled from the spec: the nested function `read_script`
(parser.py lines 172-192) drives the external tokenizer `toks` and
rebuilds the consumed tokens with `untokenize`; both live in `patch.py`,
which is not part of the sources.  Per the spec the tokenizer is used
"purely to track nesting depth of `{`/`}`", so it is modelled as a
character stream: scan forward, incrementing the level at `{`,
decrementing at `}` with positive level; a `}` at level 0 terminates,
returning the consumed text (the `untokenize` of the collected tokens)
and the rest of the line after the terminator (`s[col:]`).  Reaching the
end of the text raises `self.error("End of line reached when reading
inline Python")`, which carries the node's `posinfo`. -/
def read_script (posinfo : Nat × String) : List Char → Nat → Except Err (List Char × List Char)
  | [], _ =>
    .error (.nodeErr posinfo.1 posinfo.2 "End of line reached when reading inline Python")
  | c :: rest, level =>
    if c = '\x7b' then
      (read_script posinfo rest (level + 1)).map (fun p => (c :: p.1, p.2))
    else if c = '\x7d' then
      if level = 0 then .ok ([], rest)
      else (read_script posinfo rest (level - 1)).map (fun p => (c :: p.1, p.2))
    else
      (read_script posinfo rest level).map (fun p => (c :: p.1, p.2))

/-- The format template and captured expression fragments accumulated by
`convert_inline_python` in its local variables `fmt` (a list of literal
chunks, joined at the end) and `args` (each captured fragment is stored
already parenthesized, `args.append("(%s)" % python_code)`,
parser.py line 191). -/
structure SpliceParts where
  fmt : List Char
  args : List String
deriving DecidableEq

/-- The `while True` scanning loop of `convert_inline_python`
(parser.py lines 194-211), with an explicit fuel so the recursion is
structural; each iteration consumes at least the two marker characters,
so `s.length + 1` fuel always suffices (`spliceLoop_no_fuelOut` below).
On each marker occurrence the preceding backslashes are counted (index 0
excluded), half of them are emitted literally, and an odd count escapes
the marker while an even count enters `read_script`. -/
def spliceLoop (posinfo : Nat × String) : Nat → List Char → SpliceParts → Except Err SpliceParts
  | 0, _, _ => .error .fuelOut
  | fuel + 1, s, acc =>
    match findMarker s with
    | none => .ok { acc with fmt := acc.fmt ++ escapePercent s }
    | some oi =>
      let bs := bsCount s oi
      let acc1 : SpliceParts :=
        { acc with
          fmt := acc.fmt ++ escapePercent (s.take (oi - bs))
                  ++ escapePercent (List.replicate (bs / 2) '\\') }
      let s1 := s.drop (oi + 2)
      if bs % 2 = 1 then
        spliceLoop posinfo fuel s1
          { acc1 with fmt := acc1.fmt ++ escapePercent ['@', '\x7b'] }
      else
        match read_script posinfo s1 0 with
        | .error e => .error e
        | .ok (code, rest) =>
          spliceLoop posinfo fuel rest
            { fmt := acc1.fmt ++ ['%', 's'],
              args := acc1.args ++ ["(" ++ code.asString ++ ")"] }

/-- The template/fragment computation of `HamlObj.convert_inline_python`
(parser.py lines 155-211): the state of `fmt` and `args` after the
scanning loop finishes. -/
def convert_inline_python_parts (posinfo : Nat × String) (s : List Char) :
    Except Err SpliceParts :=
  spliceLoop posinfo (s.length + 1) s { fmt := [], args := [] }

/-- Character escaping of Python's `repr` for a chosen quote
character. -/
def pyEscape (q : Char) : List Char → List Char
  | [] => []
  | c :: r =>
    (if c = '\\' then ['\\', '\\']
     else if c = q then ['\\', q]
     else if c = '\n' then ['\\', 'n']
     else if c = '\t' then ['\\', 't']
     else if c = '\r' then ['\\', 'r']
     else [c]) ++ pyEscape q r

/-- Models Python's `repr` on strings of printable characters: single
quotes unless the string contains a single quote and no double quote. -/
def pyRepr (s : String) : String :=
  if s.data.contains '\'' ∧ ¬ s.data.contains '"' then
    "\"" ++ (pyEscape '"' s.data).asString ++ "\""
  else
    "'" ++ (pyEscape '\'' s.data).asString ++ "'"

/-- The argument-list join of parser.py lines 217-221: a single fragment
gets a trailing comma (so a tuple-valued fragment is still passed as one
argument), several fragments are comma-joined. -/
def argsJoined (args : List String) : String :=
  match args with
  | [a] => a ++ ","
  | _ => String.intercalate ", " args

/-- `HamlObj.convert_inline_python` (parser.py lines 155-222): the full
returned Python expression.  With no captured fragments the result is
`repr(fmt.replace('%%', '%'))`; otherwise it is
`"%r %% (%s)" % (fmt, args)`. -/
def convert_inline_python (posinfo : Nat × String) (s : String) : Except Err String :=
  match convert_inline_python_parts posinfo s.data with
  | .error e => .error e
  | .ok parts =>
    if parts.args = [] then
      .ok (pyRepr (unescapePercent parts.fmt).asString)
    else
      .ok (pyRepr parts.fmt.asString ++ " % (" ++ argsJoined parts.args ++ ")")

/-- The configuration options consumed by the compiler core
(`parser.op`, spec section 6). -/
structure Options where
  format : String := "xhtml"
  escape_html : Bool := false
  suppress_eval : Bool := false
  autoclose : List String := []
  preserve : List String := []
deriving DecidableEq

/-- The fields the `Script.__init__` constructor computes (parser.py
lines 396-409): the `&=` sigil escapes, `=` escapes when the global
`escape_html` option is set, and `~` preserves whitespace. -/
structure ScriptData where
  type : String := "="
  value : String := ""
  escape : Bool := false
  preserve_whitespace : Bool := false
deriving DecidableEq

/-- `Script.__init__` (parser.py lines 398-409). -/
def mkScriptData (op : Options) (type value : String) : ScriptData :=
  { type := type, value := value,
    escape := (type == "&=") || (type == "=" && op.escape_html),
    preserve_whitespace := type == "~" }

/-- A `Tag`'s `value` attribute: Python `None`, a plain string, or a
`Script` object (from the `text : script` production). -/
inductive TagValue where
  | noneV
  | str (s : String)
  | script (sd : ScriptData)
deriving DecidableEq

/-- Python truthiness of `self.value`: `None` and the empty string are
falsy, a `Script` object is always truthy. -/
def tagValueTruthy : TagValue → Bool
  | .noneV => false
  | .str s => s != ""
  | .script _ => true

/-- The attributes of a `Tag` (parser.py lines 483-494), with the
constructor's default values. -/
structure TagData where
  hash : String := ""
  id : String := ""
  klass : String := ""
  value : TagValue := .noneV
  tagname : String := "div"
  inner : Bool := false
  outer : Bool := false
  selfclose : Bool := false
deriving DecidableEq

/-- The closed set of `HamlObj` subclasses appearing in parser.py (the
`MarkdownFilter`, which calls the external Markdown renderer, is not
modelled). -/
inductive NodeKind where
  | tag (t : TagData)
  | content (value : String)
  | script (sd : ScriptData)
  | silentscript (value : String)
  | doctype (xml : Bool) (type : String)
  | comment (value : String) (condition : String)
  | filterPlain (lines : List String)
  | filterEscaped (lines : List String)
  | filterJavascript (lines : List String)
  | cdata
deriving DecidableEq

/-- A `HamlObj` instance.  `nid` models Python object identity (used by
`self.parser.last_obj is self`); `declared` is a ghost field recording
the depth passed to `begin`, set when the node is pushed (the Python
code never stores it). -/
structure Node where
  nid : Nat
  posinfo : Nat × String
  kind : NodeKind
  declared : Nat := 0
deriving DecidableEq

/-- Ghost trace events: lifecycle calls (`begin`, `end`, `open`,
`entab`, the `last_obj` assignment) and the `write` invocations (with
the pre-conversion string argument), recorded exactly where the
corresponding Python method runs. -/
inductive TraceEv where
  | beginEv (nid : Nat)
  | endEv (nid : Nat)
  | openEv (nid : Nat)
  | entabEv (nid : Nat)
  | lastSet (nid : Nat)
  | writeLit (nid : Nat) (s : String)
  | writeExpr (nid : Nat) (s : String)
deriving DecidableEq

/-- The mutable parser-wide state (spec's Compiler Context): the
instruction list `src`, the open-node stack `to_close` (top of stack at
the head), the code-indentation counter `depth`, the `last_obj`
pointer, the preserve-region counter, plus the ghost `trace` and the
fresh-id counter `nextId` used to model object identity. -/
structure PState where
  op : Options
  src : List HamlCall := []
  to_close : List Node := []
  depth : Int := 0
  last_obj : Option Nat := none
  preserve : Int := 0
  trace : List TraceEv := []
  nextId : Nat := 0
deriving DecidableEq

def addTrace (e : TraceEv) (st : PState) : PState :=
  { st with trace := st.trace ++ [e] }

/-- `HamlObj.call` acting on the state: builds the `HamlCall` with the
current emission depth and runs the peephole emitter on `src`. -/
def callP (st : PState) (n : Node) (func : Option String) (args : List String)
    (script : String) : PState :=
  let c : HamlCall :=
    { haml := some n.nid, depth := st.depth, func := func, args := args, script := script }
  { st with src := emitCall st.src c }

/-- `HamlObj.write` (parser.py lines 224-248): literal strings go
through `convert_inline_python`, expressions are wrapped in
`unicode(...)` (with a newline appended when they contain `#`), then
optionally wrapped in `_haml.escape` / `_haml.preserve_whitespace`, and
emitted as a `write` call. -/
def write (n : Node) (s : String) (literal escape preserve_whitespace : Bool)
    (st : PState) : Except Err PState :=
  match (if literal then convert_inline_python n.posinfo s
         else .ok ("unicode(" ++ (if s.data.contains '#' then s ++ "\n" else s) ++ ")")) with
  | .error e => .error e
  | .ok s1 =>
    let s2 := if escape then "_haml.escape(" ++ s1 ++ ")" else s1
    let s3 := if preserve_whitespace then "_haml.preserve_whitespace(" ++ s2 ++ ")" else s2
    .ok (callP (addTrace (if literal then .writeLit n.nid s else .writeExpr n.nid s) st)
          n (some "write") [s3] "")

/-- `HamlObj.script` (parser.py lines 250-256): a raw script line,
prefixed with tabs for the current code-indentation depth. -/
def scriptStmt (n : Node) (s : String) (st : PState) : PState :=
  callP st n none [] (String.mk (List.replicate st.depth.toNat '\t') ++ s)

/-- `HamlObj.attrs` (parser.py lines 258-269): emit an `attrs` call only
when the dict expression, class or id is non-empty. -/
def attrs (n : Node) (id klass hash : String) (st : PState) : PState :=
  if hash ≠ "\x7b\x7d" ∨ klass ≠ "" ∨ id ≠ "" then
    callP st n (some "attrs") [pyRepr id, pyRepr klass, hash] ""
  else st

def enblock (st : PState) : PState := { st with depth := st.depth + 1 }

def deblock (st : PState) : PState := { st with depth := st.depth - 1 }

/-- `HamlObj.indent` (parser.py lines 285-291): the argument is
`not self.parser.preserve`, stringified by the code generator. -/
def indent (n : Node) (st : PState) : PState :=
  callP st n (some "indent") [if st.preserve = 0 then "True" else "False"] ""

def trim (n : Node) (st : PState) : PState :=
  callP st n (some "trim") [] ""

def entabOf (n : Node) (st : PState) : PState :=
  match n.kind with
  | .silentscript _ => st
  | _ => callP st n (some "entab") [] ""

def detabOf (n : Node) (st : PState) : PState :=
  match n.kind with
  | .silentscript _ => st
  | _ => callP st n (some "detab") [] ""

/-- `HamlObj.push` (parser.py lines 147-153): an `indent` call followed
by a `write`. -/
def pushH (n : Node) (s : String) (literal escape preserve_whitespace : Bool)
    (st : PState) : Except Err PState :=
  write n s literal escape preserve_whitespace (indent n st)

/-- `HamlObj.no_nesting` (parser.py lines 326-332). -/
def no_nesting (n : Node) (st : PState) : Except Err PState :=
  if st.last_obj = some n.nid then .ok st
  else .error (.nodeErr n.posinfo.1 n.posinfo.2 "illegal nesting")

/-- `Tag.preserve` (parser.py lines 503-504). -/
def tagPreserve (op : Options) (t : TagData) : Bool :=
  op.preserve.contains t.tagname

/-- `Tag.auto` (parser.py lines 499-501). -/
def tagAuto (op : Options) (t : TagData) : Bool :=
  !tagValueTruthy t.value && (t.selfclose || op.autoclose.contains t.tagname)

/-- `Tag.push` (parser.py lines 506-515): swaps the inner/outer trim
flags when closing, trims before the indent when `outer` holds (or when
closing a tag that is still the last object), and trims after the write
when `inner` holds or a preserve region is active. -/
def tagPushCore (n : Node) (s : String) (literal escape pw inner outer closing : Bool)
    (st : PState) : Except Err PState :=
  match write n s literal escape pw
      (indent n (if outer || (closing && st.last_obj == some n.nid) then trim n st
                 else st)) with
  | .error e => .error e
  | .ok st3 => .ok (if inner || st3.preserve != 0 then trim n st3 else st3)

def tagPush (n : Node) (t : TagData) (s : String) (closing literal escape pw : Bool)
    (st : PState) : Except Err PState :=
  tagPushCore n s literal escape pw
    (if closing then t.outer else (t.inner || tagPreserve st.op t))
    (if closing then (t.inner || tagPreserve st.op t) else t.outer)
    closing st

/-- The value-writing step of `Tag.open` (parser.py lines 526-532): a
truthy value on a self-closed tag is an error, a `Script` value is
written as an expression with the script's escaping, a string value as
a literal. -/
def tagOpenValue (n : Node) (t : TagData) (st3 : PState) : Except Err PState :=
  if tagValueTruthy t.value then
    if t.selfclose then
      .error (.nodeErr n.posinfo.1 n.posinfo.2 "self-closing tags cannot have content")
    else
      match t.value with
      | .script sd => write n sd.value false sd.escape false st3
      | .str v => write n v true false false st3
      | .noneV => .ok st3
  else .ok st3

/-- The preserve-region entry of `Tag.open` (parser.py lines 534-535). -/
def tagOpenFinish (t : TagData) (st4 : PState) : PState :=
  if tagPreserve st4.op t then { st4 with preserve := st4.preserve + 1 } else st4

/-- `Tag.open` (parser.py lines 517-535). -/
def tagOpen (n : Node) (t : TagData) (st : PState) : Except Err PState :=
  match tagPush n t ("<" ++ t.tagname) false true false false st with
  | .error e => .error e
  | .ok st1 =>
    let st2 := attrs n t.id t.klass t.hash st1
    let s := if tagAuto st2.op t && (st2.op.format == "xhtml") then "/>" else ">"
    match write n s true false false st2 with
    | .error e => .error e
    | .ok st3 =>
      match tagOpenValue n t st3 with
      | .error e => .error e
      | .ok st4 => .ok (tagOpenFinish t st4)

/-- `Tag.close` (parser.py lines 537-547), keeping the source's
redundant close-tag condition
`not self.auto() and not self.value or not self.auto()` verbatim. -/
def tagClose (n : Node) (t : TagData) (st : PState) : Except Err PState :=
  match (if tagValueTruthy t.value || t.selfclose then no_nesting n st else .ok st) with
  | .error e => .error e
  | .ok st1 =>
    let st2 := if tagPreserve st1.op t then { st1 with preserve := st1.preserve - 1 } else st1
    let s := if (!tagAuto st2.op t && !tagValueTruthy t.value) || !tagAuto st2.op t then
               "</" ++ t.tagname ++ ">"
             else ""
    tagPush n t s true true false false st2

/-- `Comment.open` (parser.py lines 462-469). -/
def commentOpen (n : Node) (value condition : String) (st : PState) : Except Err PState :=
  let s := if condition ≠ "" then "<!--[" ++ condition ++ "]>" else "<!--"
  let s := if value ≠ "" then s ++ " " ++ value else s
  pushH n s true false false st

/-- `Comment.close` (parser.py lines 471-479). -/
def commentClose (n : Node) (value condition : String) (st : PState) : Except Err PState :=
  let s := if condition ≠ "" then "<![endif]-->" else "-->"
  if value ≠ "" then write n (" " ++ s) true false false st
  else pushH n s true false false st

/-- The `Filter.open` loop (parser.py lines 347-349, and 370-374 with
`escape=True`): push each accumulated line as a literal. -/
def pushLines (n : Node) (lines : List String) (escape : Bool) (st : PState) :
    Except Err PState :=
  match lines with
  | [] => .ok st
  | l :: rest =>
    match pushH n l true escape false st with
    | .error e => .error e
    | .ok st1 => pushLines n rest escape st1

/-- The static doctype table (parser.py lines 7-40), including the two
assignments that alias the empty subtype to `transitional` for `xhtml`
and `html4`.  `none` models a Python `KeyError`. -/
def doctypes (format subtype : String) : Option String :=
  match format with
  | "xhtml" =>
    match subtype with
    | "strict" => some ("<!DOCTYPE html PUBLIC \"-//W3C//DTD XHTML 1.0 Strict//EN\" " ++
        "\"http://www.w3.org/TR/xhtml1/DTD/xhtml1-strict.dtd\">")
    | "transitional" => some ("<!DOCTYPE html PUBLIC \"-//W3C//DTD XHTML 1.0 Transitional//EN\" " ++
        "\"http://www.w3.org/TR/xhtml1/DTD/xhtml1-transitional.dtd\">")
    | "basic" => some ("<!DOCTYPE html PUBLIC \"-//W3C//DTD XHTML Basic 1.1//EN\" " ++
        "\"http://www.w3.org/TR/xhtml-basic/xhtml-basic11.dtd\">")
    | "mobile" => some ("<!DOCTYPE html PUBLIC \"-//WAPFORUM//DTD XHTML Mobile 1.2//EN\" " ++
        "\"http://www.openmobilealliance.org/tech/DTD/xhtml-mobile12.dtd\">")
    | "frameset" => some ("<!DOCTYPE html PUBLIC \"-//W3C//DTD XHTML 1.0 Frameset//EN\" " ++
        "\"http://www.w3.org/TR/xhtml1/DTD/xhtml1-frameset.dtd\">")
    | "" => some ("<!DOCTYPE html PUBLIC \"-//W3C//DTD XHTML 1.0 Transitional//EN\" " ++
        "\"http://www.w3.org/TR/xhtml1/DTD/xhtml1-transitional.dtd\">")
    | _ => none
  | "html4" =>
    match subtype with
    | "strict" => some ("<!DOCTYPE html PUBLIC \"-//W3C//DTD HTML 4.01//EN\" " ++
        "\"http://www.w3.org/TR/html4/strict.dtd\">")
    | "frameset" => some ("<!DOCTYPE html PUBLIC \"-//W3C//DTD HTML 4.01 Frameset//EN\" " ++
        "\"http://www.w3.org/TR/html4/frameset.dtd\">")
    | "transitional" => some ("<!DOCTYPE html PUBLIC \"-//W3C//DTD HTML 4.01 Transitional//EN\" " ++
        "\"http://www.w3.org/TR/html4/loose.dtd\">")
    | "" => some ("<!DOCTYPE html PUBLIC \"-//W3C//DTD HTML 4.01 Transitional//EN\" " ++
        "\"http://www.w3.org/TR/html4/loose.dtd\">")
    | _ => none
  | "html5" =>
    match subtype with
    | "" => some "<!DOCTYPE html>"
    | _ => none
  | _ => none

/-- `Doctype.open` (parser.py lines 444-450): the XML prolog
`'<?xml version="1.0" encoding="%s"?>' % self.type`, or the doctype
table lookup `doctypes[self.parser.op.format][self.type]`. -/
def doctypeOpen (n : Node) (xml : Bool) (type : String) (st : PState) : Except Err PState :=
  if xml then
    pushH n ("<?xml version=\"1.0\" encoding=\"" ++ type ++ "\"?>") true false false st
  else
    match doctypes st.op.format type with
    | some s => pushH n s true false false st
    | none => .error (.keyErr (st.op.format ++ "/" ++ type))

/-- The `open` method of every node variant whose `open` does not itself
begin further nodes.  The `filterJavascript` branch is unreachable
through this function: `openNode` below dispatches it to `jsOpen`, and
`beginWith openNode0` is only ever applied to the synthesized `script`
tag and CData nodes. -/
def openNode0 (n : Node) (st : PState) : Except Err PState :=
  match n.kind with
  | .tag t => tagOpen n t st
  | .content v => pushH n v true false false st
  | .script sd => pushH n sd.value false sd.escape sd.preserve_whitespace st
  | .silentscript v => .ok (enblock (scriptStmt n v st))
  | .doctype xml type => doctypeOpen n xml type st
  | .comment v c => commentOpen n v c st
  | .filterPlain lines => pushLines n lines false st
  | .filterEscaped lines => pushLines n lines true st
  | .filterJavascript _ => .ok st
  | .cdata => pushH n "//<![CDATA[" true false false st

/-- The `close` method of every node variant (`HamlObj.close` is a
no-op for scripts and filters). -/
def closeNode (n : Node) (st : PState) : Except Err PState :=
  match n.kind with
  | .tag t => tagClose n t st
  | .content _ => no_nesting n st
  | .script _ => .ok st
  | .silentscript _ => .ok (deblock st)
  | .doctype _ _ => no_nesting n st
  | .comment v c => commentClose n v c st
  | .filterPlain _ => .ok st
  | .filterEscaped _ => .ok st
  | .filterJavascript _ => .ok st
  | .cdata => pushH n "//]]>" true false false st

/-- `HamlObj.end` (parser.py lines 121-126): `detab` then `close`, with
the ghost end event. -/
def endObj (n : Node) (st : PState) : Except Err PState :=
  closeNode n (detabOf n (addTrace (.endEv n.nid) st))

/-- The `while len(self.parser.to_close) > depth: pop().end()` loop of
`HamlObj.begin` (with `depth = 0` it is the end-of-input flush of
`p_haml_doc`).  The fuel is always instantiated with the stack length,
which suffices because `endObj` never touches `to_close`
(`endObj_frame` below). -/
def popLoop : Nat → Nat → PState → Except Err PState
  | 0, _, st => .ok st
  | fuel + 1, depth, st =>
    if st.to_close.length > depth then
      match st.to_close with
      | [] => .ok st
      | n :: rest =>
        match endObj n { st with to_close := rest } with
        | .error e => .error e
        | .ok st1 => popLoop fuel depth st1
    else .ok st

/-- `HamlObj.begin` (parser.py lines 109-119) parametrized by the
`open` dispatcher (to stratify the recursion through
`JavascriptFilter.open`, which begins nodes of its own): close
everything while the stack is longer than `depth`, record the node as
`last_obj`, call `open`, call `entab`, push the node. -/
def beginWith (opener : Node → PState → Except Err PState) (n : Node) (depth : Nat)
    (st : PState) : Except Err PState :=
  match popLoop st.to_close.length depth (addTrace (.beginEv n.nid) st) with
  | .error e => .error e
  | .ok st1 =>
    let st2 := addTrace (.lastSet n.nid) { st1 with last_obj := some n.nid }
    match opener n (addTrace (.openEv n.nid) st2) with
    | .error e => .error e
    | .ok st3 =>
      let st4 := entabOf n (addTrace (.entabEv n.nid) st3)
      .ok { st4 with to_close := { n with declared := depth } :: st4.to_close }

/-- Creation of a fresh `HamlObj`: a new Python object gets a fresh
identity. -/
def mkNode (st : PState) (posinfo : Nat × String) (kind : NodeKind) : Node × PState :=
  ({ nid := st.nextId, posinfo := posinfo, kind := kind },
   { st with nextId := st.nextId + 1 })

/-- The Python `repr({'type': 'text/javascript'})` literal used by
`JavascriptFilter.open`. -/
def jsHash : String := "\x7b'type': 'text/javascript'\x7d"

/-- `JavascriptFilter.open` (parser.py lines 359-368): begin a
synthesized `script` tag at `len(to_close) + 1`, for XHTML also a CData
node at `len(to_close) + 2`, then push the accumulated lines. -/
def jsOpen (n : Node) (lines : List String) (st : PState) : Except Err PState :=
  let depth := st.to_close.length
  let p1 := mkNode st n.posinfo (.tag { hash := jsHash, tagname := "script" })
  match beginWith openNode0 p1.1 (depth + 1) p1.2 with
  | .error e => .error e
  | .ok st2 =>
    match (if st2.op.format == "xhtml" then
             let p2 := mkNode st2 n.posinfo .cdata
             beginWith openNode0 p2.1 (depth + 2) p2.2
           else .ok st2) with
    | .error e => .error e
    | .ok st4 => pushLines n lines false st4

/-- The full `open` dispatcher, including `JavascriptFilter.open`. -/
def openNode (n : Node) (st : PState) : Except Err PState :=
  match n.kind with
  | .filterJavascript lines => jsOpen n lines st
  | _ => openNode0 n st

/-- `HamlObj.begin` with the full `open` dispatcher. -/
def begin (n : Node) (depth : Nat) (st : PState) : Except Err PState :=
  beginWith openNode n depth st

/-- One grammar reduction producing a template element, as consumed by
`p_obj` (parser.py lines 582-594): the node data and the declared
indentation depth (`p[1].haml_indent` or the lexer depth). -/
structure Ev where
  posinfo : Nat × String
  kind : NodeKind
  depth : Nat
deriving DecidableEq

/-- `p_obj`: construct the node and `begin` it at its depth. -/
def processEvent (st : PState) (ev : Ev) : Except Err PState :=
  let p := mkNode st ev.posinfo ev.kind
  begin p.1 ev.depth p.2

def runEvents : List Ev → PState → Except Err PState
  | [], st => .ok st
  | ev :: rest, st =>
    match processEvent st ev with
    | .error e => .error e
    | .ok st1 => runEvents rest st1

/-- `p_haml_doc` (parser.py lines 568-574): at the end of parsing, close
all unclosed objects. -/
def p_haml_doc (st : PState) : Except Err PState :=
  popLoop st.to_close.length 0 st

def initState (op : Options) : PState := { op := op }

/-- A full compilation: process every reduction in order, then flush. -/
def runDoc (op : Options) (evs : List Ev) : Except Err PState :=
  match runEvents evs (initState op) with
  | .error e => .error e
  | .ok st => p_haml_doc st

/-- `p_silentscript` (parser.py lines 623-628). -/
def p_silentscript (op : Options) (lineno lexpos : Nat) (value : String) :
    Except Err NodeKind :=
  if op.suppress_eval then
    .error (.parseErr lineno lexpos "python evaluation is not allowed")
  else .ok (.silentscript value)

/-- `p_script` (parser.py lines 630-636). -/
def p_script (op : Options) (script_type script : String) : NodeKind :=
  .script (mkScriptData op script_type (if op.suppress_eval then "\"\"" else script))

/-- `p_dict` (parser.py lines 710-716): `none` stands for the empty
production. -/
def p_dict (op : Options) (d : Option String) : String :=
  match d with
  | none => "\x7b\x7d"
  | some s => if op.suppress_eval then "\x7b\x7d" else s

/-- `p_xmltype` (parser.py lines 651-657): empty charset defaults to
`utf-8`. -/
def p_xmltype (charset : String) : NodeKind :=
  .doctype true (if charset = "" then "utf-8" else charset)

/-- The literal strings passed to literal `write` calls, extracted from
the ghost trace. -/
def writeLits (tr : List TraceEv) : List String :=
  tr.filterMap fun e =>
    match e with
    | .writeLit _ s => some s
    | _ => none

def countBegin (tr : List TraceEv) (id : Nat) : Nat := tr.count (.beginEv id)

def countEnd (tr : List TraceEv) (id : Nat) : Nat := tr.count (.endEv id)

def countStack (stk : List Node) (id : Nat) : Nat :=
  (stk.map (fun n => n.nid)).count id

/-- A step that only emits instructions and write/lifecycle-free trace
events: the configuration, the open-node stack, the `last_obj` pointer,
the id counter and the per-id begin/end event counts are unchanged, and
the trace is only appended to.  All `open`/`close` bodies except
`JavascriptFilter.open` satisfy this. -/
def EmitsOnly (st st' : PState) : Prop :=
  st'.op = st.op ∧ st'.to_close = st.to_close ∧ st'.last_obj = st.last_obj ∧
  st'.nextId = st.nextId ∧ (∃ tr', st'.trace = st.trace ++ tr') ∧
  (∀ id, countBegin st'.trace id = countBegin st.trace id) ∧
  (∀ id, countEnd st'.trace id = countEnd st.trace id)

/-- The stack-discipline invariant: every id's begin count equals its
end count plus its open-stack occurrences, no id is begun twice, and
ids not yet allocated occur nowhere. -/
def StackInv (st : PState) : Prop :=
  (∀ id, countBegin st.trace id = countEnd st.trace id + countStack st.to_close id) ∧
  (∀ id, countBegin st.trace id ≤ 1) ∧
  (∀ id, st.nextId ≤ id → countBegin st.trace id = 0 ∧ countEnd st.trace id = 0 ∧
    countStack st.to_close id = 0)

theorem exceptMap_eq_ok {α β : Type} {e : Except Err α} {f : α → β} {b : β}
    (h : e.map f = .ok b) : ∃ a, e = .ok a ∧ f a = b := by
  cases e with
  | error err => simp [Except.map] at h
  | ok a => exact ⟨a, rfl, by simpa [Except.map] using h⟩

theorem exceptMap_eq_error {α β : Type} {e : Except Err α} {f : α → β} {err : Err}
    (h : e.map f = .error err) : e = .error err := by
  cases e with
  | error e0 => simpa [Except.map] using h
  | ok a => simp [Except.map] at h

theorem findMarker_eq_none (s : List Char) (h : hasMarker s = false) :
    findMarker s = none := by
  induction s with
  | nil => rfl
  | cons c r ih =>
    rw [hasMarker] at h
    rw [findMarker]
    split at h
    · cases h
    · rename_i h1
      split
      · rename_i h2; exact absurd h2 h1
      · rw [ih h]; rfl

theorem findMarker_append (pre suf : List Char) (h : hasMarker pre = false) :
    findMarker (pre ++ '@' :: '\x7b' :: suf) = some pre.length := by
  induction pre with
  | nil =>
    rw [List.nil_append, findMarker]
    split
    · rfl
    · rename_i h1
      exact absurd ⟨rfl, rfl⟩ h1
  | cons c r ih =>
    rw [hasMarker] at h
    split at h
    · cases h
    · rename_i h1
      rw [List.cons_append, findMarker]
      split
      · rename_i h2
        obtain ⟨hc, hh⟩ := h2
        exfalso
        apply h1
        refine ⟨hc, ?_⟩
        cases r with
        | nil => simp [headIs] at hh
        | cons d r2 => exact hh
      · rw [ih h]
        rfl

theorem bsCount_append_zero (pre rest : List Char) (h : ∀ c ∈ pre, c ≠ '\\') :
    bsCount (pre ++ rest) pre.length = 0 := by
  rcases hp : pre.length with _ | k
  · rfl
  · show bsCountAux (pre ++ rest) k = 0
    rcases k with _ | j
    · rfl
    · rw [bsCountAux, if_neg]
      intro hbs
      have hlt : j + 1 < pre.length := by omega
      rw [List.getD_append _ _ _ _ (by omega)] at hbs
      have hm : pre.getD (j + 1) ' ' ∈ pre := by
        rw [List.getD_eq_getElem _ _ hlt]
        exact List.getElem_mem hlt
      exact h _ hm hbs

theorem drop_marker (pre suf : List Char) :
    (pre ++ '@' :: '\x7b' :: suf).drop (pre.length + 2) = suf := by
  have h1 : pre ++ '@' :: '\x7b' :: suf = (pre ++ ['@', '\x7b']) ++ suf := by simp
  have h2 : pre.length + 2 = (pre ++ ['@', '\x7b']).length := by simp
  rw [h1, h2, List.drop_left]

theorem take_marker (pre suf : List Char) :
    (pre ++ '@' :: '\x7b' :: suf).take pre.length = pre := by
  exact List.take_left pre _

theorem read_script_err (posinfo : Nat × String) :
    ∀ (s : List Char) (level : Nat), hasClose0 level s = false →
    read_script posinfo s level =
      .error (.nodeErr posinfo.1 posinfo.2
        "End of line reached when reading inline Python") := by
  intro s
  induction s with
  | nil => intro level _; rfl
  | cons c r ih =>
    intro level h
    rw [hasClose0] at h
    rw [read_script]
    by_cases h1 : c = '\x7b'
    · rw [if_pos h1] at h ⊢
      rw [ih _ h]; rfl
    · rw [if_neg h1] at h ⊢
      by_cases h2 : c = '\x7d'
      · rw [if_pos h2] at h ⊢
        by_cases h3 : level = 0
        · rw [if_pos h3] at h; cases h
        · rw [if_neg h3] at h ⊢
          rw [ih _ h]; rfl
      · rw [if_neg h2] at h ⊢
        rw [ih _ h]; rfl

theorem read_script_error_shape (posinfo : Nat × String) :
    ∀ (s : List Char) (level : Nat) (e : Err), read_script posinfo s level = .error e →
    e = .nodeErr posinfo.1 posinfo.2 "End of line reached when reading inline Python" := by
  intro s
  induction s with
  | nil =>
    intro level e h
    rw [read_script] at h
    exact (Except.error.inj h).symm
  | cons c r ih =>
    intro level e h
    rw [read_script] at h
    by_cases h1 : c = '\x7b'
    · rw [if_pos h1] at h
      exact ih _ _ (exceptMap_eq_error h)
    · rw [if_neg h1] at h
      by_cases h2 : c = '\x7d'
      · rw [if_pos h2] at h
        by_cases h3 : level = 0
        · rw [if_pos h3] at h; cases h
        · rw [if_neg h3] at h
          exact ih _ _ (exceptMap_eq_error h)
      · rw [if_neg h2] at h
        exact ih _ _ (exceptMap_eq_error h)

theorem read_script_rest_lt (posinfo : Nat × String) :
    ∀ (s : List Char) (level : Nat) (code rest : List Char),
      read_script posinfo s level = .ok (code, rest) → rest.length < s.length := by
  intro s
  induction s with
  | nil =>
    intro level code rest h
    rw [read_script] at h; cases h
  | cons c r ih =>
    intro level code rest h
    rw [read_script] at h
    by_cases h1 : c = '\x7b'
    · rw [if_pos h1] at h
      obtain ⟨⟨cd, rst⟩, hr, hf⟩ := exceptMap_eq_ok h
      have hlt := ih _ _ _ hr
      have hrst : rst = rest := congrArg Prod.snd hf
      rw [hrst] at hlt
      simp only [List.length_cons]
      omega
    · rw [if_neg h1] at h
      by_cases h2 : c = '\x7d'
      · rw [if_pos h2] at h
        by_cases h3 : level = 0
        · rw [if_pos h3] at h
          have : rest = r := (Prod.mk.injEq _ _ _ _ ▸ Except.ok.inj h).2.symm
          subst this
          simp
        · rw [if_neg h3] at h
          obtain ⟨⟨cd, rst⟩, hr, hf⟩ := exceptMap_eq_ok h
          have hlt := ih _ _ _ hr
          have hrst : rst = rest := congrArg Prod.snd hf
          rw [hrst] at hlt
          simp only [List.length_cons]
          omega
      · rw [if_neg h2] at h
        obtain ⟨⟨cd, rst⟩, hr, hf⟩ := exceptMap_eq_ok h
        have hlt := ih _ _ _ hr
        have hrst : rst = rest := congrArg Prod.snd hf
        rw [hrst] at hlt
        simp only [List.length_cons]
        omega

theorem findMarker_bound :
    ∀ (s : List Char) (oi : Nat), findMarker s = some oi → oi + 2 ≤ s.length := by
  intro s
  induction s with
  | nil => intro oi h; cases h
  | cons c r ih =>
    intro oi h
    rw [findMarker] at h
    split at h
    · rename_i h1
      obtain ⟨hc, hh⟩ := h1
      have hoi : oi = 0 := (Option.some.inj h).symm
      subst hoi
      cases r with
      | nil => simp [headIs] at hh
      | cons d r2 => simp
    · cases hr : findMarker r with
      | none => rw [hr] at h; cases h
      | some oj =>
        rw [hr] at h
        have hoi : oi = oj + 1 := (Option.some.inj h).symm
        subst hoi
        have := ih _ hr
        simp only [List.length_cons]
        omega

theorem spliceLoop_no_fuelOut (posinfo : Nat × String) :
    ∀ (fuel : Nat) (s : List Char) (acc : SpliceParts), s.length < fuel →
    spliceLoop posinfo fuel s acc ≠ .error .fuelOut := by
  intro fuel
  induction fuel with
  | zero => intro s acc h; omega
  | succ f ih =>
    intro s acc h
    rw [spliceLoop]
    cases hm : findMarker s with
    | none => intro hcon; cases hcon
    | some oi =>
      have hbound := findMarker_bound s oi hm
      simp only []
      by_cases hodd : bsCount s oi % 2 = 1
      · rw [if_pos hodd]
        apply ih
        have : (s.drop (oi + 2)).length = s.length - (oi + 2) := List.length_drop _ _
        omega
      · rw [if_neg hodd]
        cases hr : read_script posinfo (s.drop (oi + 2)) 0 with
        | error e =>
          have := read_script_error_shape posinfo _ _ _ hr
          subst this
          intro hcon
          cases hcon
        | ok p =>
          obtain ⟨code, rest⟩ := p
          apply ih
          have h1 := read_script_rest_lt posinfo _ _ _ _ hr
          have h2 : (s.drop (oi + 2)).length = s.length - (oi + 2) := List.length_drop _ _
          omega

theorem parts_no_marker (posinfo : Nat × String) (s : List Char) (h : hasMarker s = false) :
    convert_inline_python_parts posinfo s = .ok { fmt := escapePercent s, args := [] } := by
  unfold convert_inline_python_parts
  rw [spliceLoop, findMarker_eq_none s h]
  rfl

theorem emitCall_concat (xs : List HamlCall) (l next : HamlCall) :
    emitCall (xs ++ [l]) next =
      (if l.depth = next.depth then
        if next.func = some "detab" ∧ l.func = some "entab" then
          xs
        else if next.func = some "write" ∧ next.func = l.func then
          xs ++ [{ l with args := l.args ++ next.args }]
        else
          xs ++ [l, next]
      else
        xs ++ [l, next]) := by
  simp only [emitCall, List.getLast?_concat, List.dropLast_concat, List.append_assoc,
    List.singleton_append]

/-- C2: emitting a `detab` whose depth equals that of the immediately
preceding `entab` pops the `entab` (netting zero instructions); emitting
a `write` whose depth equals that of an immediately preceding `write`
merges the argument lists into the single previous `write`; in every
other case the instruction is appended unchanged; and only the
immediately preceding instruction is ever inspected (the result beyond
the untouched prefix depends only on the last instruction and the new
one). -/
theorem c2_peephole_emitter :
    (∀ (xs : List HamlCall) (e d : HamlCall),
        e.func = some "entab" → d.func = some "detab" → e.depth = d.depth →
        emitCall (xs ++ [e]) d = xs)
  ∧ (∀ (xs : List HamlCall) (w v : HamlCall),
        w.func = some "write" → v.func = some "write" → w.depth = v.depth →
        emitCall (xs ++ [w]) v = xs ++ [{ w with args := w.args ++ v.args }])
  ∧ (∀ (xs : List HamlCall) (l n : HamlCall),
        (l.depth = n.depth →
          ¬(n.func = some "detab" ∧ l.func = some "entab") ∧
          ¬(n.func = some "write" ∧ n.func = l.func)) →
        emitCall (xs ++ [l]) n = xs ++ [l, n])
  ∧ (∀ n : HamlCall, emitCall [] n = [n])
  ∧ (∀ (xs ys : List HamlCall) (l n : HamlCall),
        ∃ zs, emitCall (xs ++ [l]) n = xs ++ zs ∧
              emitCall (ys ++ [l]) n = ys ++ zs) := by
  refine ⟨?_, ?_, ?_, ?_, ?_⟩
  · intro xs e d he hd hdep
    rw [emitCall_concat]
    simp [he, hd, hdep]
  · intro xs w v hw hv hdep
    rw [emitCall_concat]
    simp [hw, hv, hdep]
  · intro xs l n h
    rw [emitCall_concat]
    split
    · rename_i hdep
      obtain ⟨h1, h2⟩ := h hdep
      rw [if_neg h1, if_neg h2]
    · rfl
  · intro n
    rfl
  · intro xs ys l n
    by_cases hdep : l.depth = n.depth
    · by_cases h1 : n.func = some "detab" ∧ l.func = some "entab"
      · exact ⟨[], by rw [emitCall_concat, if_pos hdep, if_pos h1]; simp,
                   by rw [emitCall_concat, if_pos hdep, if_pos h1]; simp⟩
      · by_cases h2 : n.func = some "write" ∧ n.func = l.func
        · exact ⟨[{ l with args := l.args ++ n.args }],
            by rw [emitCall_concat, if_pos hdep, if_neg h1, if_pos h2],
            by rw [emitCall_concat, if_pos hdep, if_neg h1, if_pos h2]⟩
        · exact ⟨[l, n],
            by rw [emitCall_concat, if_pos hdep, if_neg h1, if_neg h2],
            by rw [emitCall_concat, if_pos hdep, if_neg h1, if_neg h2]⟩
    · exact ⟨[l, n], by rw [emitCall_concat, if_neg hdep],
                     by rw [emitCall_concat, if_neg hdep]⟩

theorem c2_witness :
    (({ func := some "entab", depth := 2 } : HamlCall).func = some "entab" ∧
     emitCall ([{ func := some "write", depth := 0 },
                { func := some "entab", depth := 2 }] : List HamlCall)
       { func := some "detab", depth := 2 } =
       [{ func := some "write", depth := 0 }]) ∧
    emitCall ([{ func := some "write", depth := 1, args := ["'a'"] }] : List HamlCall)
       { func := some "write", depth := 1, args := ["'b'"] } =
       [{ func := some "write", depth := 1, args := ["'a'", "'b'"] }] ∧
    emitCall ([{ func := some "entab", depth := 0 }] : List HamlCall)
       { func := some "detab", depth := 1 } =
       [{ func := some "entab", depth := 0 }, { func := some "detab", depth := 1 }] := by
  refine ⟨⟨rfl, ?_⟩, ?_, ?_⟩
  · exact c2_peephole_emitter.1
      [{ func := some "write", depth := 0 }]
      { func := some "entab", depth := 2 }
      { func := some "detab", depth := 2 } rfl rfl rfl
  · exact c2_peephole_emitter.2.1
      [] { func := some "write", depth := 1, args := ["'a'"] }
      { func := some "write", depth := 1, args := ["'b'"] } rfl rfl rfl
  · exact c2_peephole_emitter.2.2.1
      [] { func := some "entab", depth := 0 }
      { func := some "detab", depth := 1 } (by intro h; simp at h)

theorem parts_unterminated (posinfo : Nat × String) (pre suf : List Char)
    (hm : hasMarker pre = false) (hb : ∀ c ∈ pre, c ≠ '\\')
    (hc : hasClose0 0 suf = false) :
    convert_inline_python_parts posinfo (pre ++ '@' :: '\x7b' :: suf) =
      .error (.nodeErr posinfo.1 posinfo.2
        "End of line reached when reading inline Python") := by
  unfold convert_inline_python_parts
  rw [spliceLoop, findMarker_append pre suf hm]
  simp only [bsCount_append_zero pre ('@' :: '\x7b' :: suf) hb, drop_marker pre suf,
    read_script_err posinfo suf 0 hc]
  rw [if_neg (by omega : ¬(0 % 2 = 1))]

/-- C3: the inline expression splicer returns, for any text with no
occurrence of the marker `@{`, the `%`-escaped literal as template with
an empty fragment list; splicing `"a @{x} b"` yields template `"a %s b"`
with the single captured fragment `x` (stored parenthesized as `"(x)"`,
exactly as `args.append("(%s)" % python_code)` stores it); and splicing
`"a \@{x} b"` (backslash-escaped marker) yields the literal
`"a @{x} b"` with no fragments. -/
theorem c3_expression_splicer :
    (∀ (posinfo : Nat × String) (s : List Char), hasMarker s = false →
      convert_inline_python_parts posinfo s = .ok { fmt := escapePercent s, args := [] })
  ∧ convert_inline_python_parts (0, "") "a @\x7bx\x7d b".data =
      .ok { fmt := "a %s b".data, args := ["(" ++ "x" ++ ")"] }
  ∧ convert_inline_python_parts (0, "") "a \\@\x7bx\x7d b".data =
      .ok { fmt := "a @\x7bx\x7d b".data, args := [] } := by
  refine ⟨parts_no_marker, rfl, rfl⟩

theorem c3_witness :
    hasMarker "hi% there".data = false ∧
    convert_inline_python_parts (7, "src line") "hi% there".data =
      .ok { fmt := escapePercent "hi% there".data, args := [] } :=
  ⟨by decide, c3_expression_splicer.1 (7, "src line") "hi% there".data (by decide)⟩

/-- C7: for any text in which an unescaped `@{` marker (here: a marker
preceded by a backslash-free, marker-free prefix) is never followed by a
`}` at brace-nesting depth 0 before the end of the text, the splicer
raises the unterminated-inline-expression error carrying the enclosing
node's position (line number and source snippet) and produces no
result. -/
theorem c7_unterminated_expression (posinfo : Nat × String) (pre suf : List Char)
    (hm : hasMarker pre = false) (hb : ∀ c ∈ pre, c ≠ '\\')
    (hc : hasClose0 0 suf = false) :
    convert_inline_python posinfo (String.mk (pre ++ '@' :: '\x7b' :: suf)) =
      .error (.nodeErr posinfo.1 posinfo.2
        "End of line reached when reading inline Python") := by
  unfold convert_inline_python
  rw [show (String.mk (pre ++ '@' :: '\x7b' :: suf)).data = pre ++ '@' :: '\x7b' :: suf
      from rfl]
  rw [parts_unterminated posinfo pre suf hm hb hc]

theorem c7_witness :
    convert_inline_python (5, "%p= hello") (String.mk ("ab ".data ++ '@' :: '\x7b' :: "x(y".data)) =
      .error (.nodeErr 5 "%p= hello" "End of line reached when reading inline Python") :=
  c7_unterminated_expression (5, "%p= hello") "ab ".data "x(y".data
    (by decide) (by decide) (by decide)

/-- C10: the backslash-counting loop `for i in xrange(open_index - 1, 0,
-1)` never examines index 0 of the text: for every text the count at a
marker starting at index 1 is 0.  Hence `"\@{x}"` (single backslash at
index 0) is treated as a real, unescaped expression start and its `x` is
captured as a fragment, while the same backslash-marker pattern one
character later, `" \@{x}"`, is treated as escaped and produces the
literal `" @{x}"` with no fragments. -/
theorem c10_backslash_scan_skips_index_zero :
    (∀ s : List Char, bsCount s 1 = 0)
  ∧ "\\@\x7bx\x7d".data.getD 0 ' ' = '\\'
  ∧ convert_inline_python_parts (0, "") "\\@\x7bx\x7d".data =
      .ok { fmt := "\\%s".data, args := ["(x)"] }
  ∧ convert_inline_python_parts (0, "") " \\@\x7bx\x7d".data =
      .ok { fmt := " @\x7bx\x7d".data, args := [] } :=
  ⟨fun _ => rfl, by decide, rfl, rfl⟩

theorem callP_op (st : PState) (n : Node) (f : Option String) (a : List String)
    (s : String) : (callP st n f a s).op = st.op := rfl

theorem callP_to_close (st : PState) (n : Node) (f : Option String) (a : List String)
    (s : String) : (callP st n f a s).to_close = st.to_close := rfl

theorem callP_depth (st : PState) (n : Node) (f : Option String) (a : List String)
    (s : String) : (callP st n f a s).depth = st.depth := rfl

theorem callP_last_obj (st : PState) (n : Node) (f : Option String) (a : List String)
    (s : String) : (callP st n f a s).last_obj = st.last_obj := rfl

theorem callP_preserve (st : PState) (n : Node) (f : Option String) (a : List String)
    (s : String) : (callP st n f a s).preserve = st.preserve := rfl

theorem callP_trace (st : PState) (n : Node) (f : Option String) (a : List String)
    (s : String) : (callP st n f a s).trace = st.trace := rfl

theorem callP_nextId (st : PState) (n : Node) (f : Option String) (a : List String)
    (s : String) : (callP st n f a s).nextId = st.nextId := rfl

theorem writeLits_append (a b : List TraceEv) :
    writeLits (a ++ b) = writeLits a ++ writeLits b := by
  unfold writeLits
  exact List.filterMap_append a b _

theorem convert_no_marker (posinfo : Nat × String) (s : String)
    (hm : hasMarker s.data = false) :
    convert_inline_python posinfo s =
      .ok (pyRepr (unescapePercent (escapePercent s.data)).asString) := by
  unfold convert_inline_python
  rw [parts_no_marker posinfo s.data hm]
  rfl

theorem write_lit_ok (n : Node) (s : String) (esc pw : Bool) (st : PState)
    (hm : hasMarker s.data = false) :
    ∃ a, write n s true esc pw st =
      .ok (callP (addTrace (.writeLit n.nid s) st) n (some "write") [a] "") := by
  unfold write
  rw [if_pos rfl, convert_no_marker n.posinfo s hm]
  exact ⟨_, rfl⟩

theorem write_expr_ok (n : Node) (s : String) (esc pw : Bool) (st : PState) :
    ∃ a, write n s false esc pw st =
      .ok (callP (addTrace (.writeExpr n.nid s) st) n (some "write") [a] "") := by
  unfold write
  exact ⟨_, rfl⟩

theorem addTrace_op (e : TraceEv) (st : PState) : (addTrace e st).op = st.op := rfl

theorem addTrace_to_close (e : TraceEv) (st : PState) :
    (addTrace e st).to_close = st.to_close := rfl

theorem addTrace_depth (e : TraceEv) (st : PState) : (addTrace e st).depth = st.depth := rfl

theorem addTrace_last_obj (e : TraceEv) (st : PState) :
    (addTrace e st).last_obj = st.last_obj := rfl

theorem addTrace_preserve (e : TraceEv) (st : PState) :
    (addTrace e st).preserve = st.preserve := rfl

theorem addTrace_trace (e : TraceEv) (st : PState) :
    (addTrace e st).trace = st.trace ++ [e] := rfl

theorem addTrace_nextId (e : TraceEv) (st : PState) :
    (addTrace e st).nextId = st.nextId := rfl

theorem trim_op (n : Node) (st : PState) : (trim n st).op = st.op := rfl

theorem trim_to_close (n : Node) (st : PState) : (trim n st).to_close = st.to_close := rfl

theorem trim_depth (n : Node) (st : PState) : (trim n st).depth = st.depth := rfl

theorem trim_last_obj (n : Node) (st : PState) : (trim n st).last_obj = st.last_obj := rfl

theorem trim_preserve (n : Node) (st : PState) : (trim n st).preserve = st.preserve := rfl

theorem trim_trace (n : Node) (st : PState) : (trim n st).trace = st.trace := rfl

theorem trim_nextId (n : Node) (st : PState) : (trim n st).nextId = st.nextId := rfl

theorem indent_op (n : Node) (st : PState) : (indent n st).op = st.op := rfl

theorem indent_to_close (n : Node) (st : PState) : (indent n st).to_close = st.to_close := rfl

theorem indent_depth (n : Node) (st : PState) : (indent n st).depth = st.depth := rfl

theorem indent_last_obj (n : Node) (st : PState) : (indent n st).last_obj = st.last_obj := rfl

theorem indent_preserve (n : Node) (st : PState) : (indent n st).preserve = st.preserve := rfl

theorem indent_trace (n : Node) (st : PState) : (indent n st).trace = st.trace := rfl

theorem indent_nextId (n : Node) (st : PState) : (indent n st).nextId = st.nextId := rfl

theorem ite_pstate_op (b : Prop) [Decidable b] (s1 s2 : PState) :
    (ite b s1 s2).op = ite b s1.op s2.op := by split <;> rfl

theorem ite_pstate_to_close (b : Prop) [Decidable b] (s1 s2 : PState) :
    (ite b s1 s2).to_close = ite b s1.to_close s2.to_close := by split <;> rfl

theorem ite_pstate_depth (b : Prop) [Decidable b] (s1 s2 : PState) :
    (ite b s1 s2).depth = ite b s1.depth s2.depth := by split <;> rfl

theorem ite_pstate_last_obj (b : Prop) [Decidable b] (s1 s2 : PState) :
    (ite b s1 s2).last_obj = ite b s1.last_obj s2.last_obj := by split <;> rfl

theorem ite_pstate_preserve (b : Prop) [Decidable b] (s1 s2 : PState) :
    (ite b s1 s2).preserve = ite b s1.preserve s2.preserve := by split <;> rfl

theorem ite_pstate_trace (b : Prop) [Decidable b] (s1 s2 : PState) :
    (ite b s1 s2).trace = ite b s1.trace s2.trace := by split <;> rfl

theorem ite_pstate_nextId (b : Prop) [Decidable b] (s1 s2 : PState) :
    (ite b s1 s2).nextId = ite b s1.nextId s2.nextId := by split <;> rfl

theorem attrs_op (n : Node) (i k h : String) (st : PState) :
    (attrs n i k h st).op = st.op := by unfold attrs; split <;> rfl

theorem attrs_to_close (n : Node) (i k h : String) (st : PState) :
    (attrs n i k h st).to_close = st.to_close := by unfold attrs; split <;> rfl

theorem attrs_depth (n : Node) (i k h : String) (st : PState) :
    (attrs n i k h st).depth = st.depth := by unfold attrs; split <;> rfl

theorem attrs_last_obj (n : Node) (i k h : String) (st : PState) :
    (attrs n i k h st).last_obj = st.last_obj := by unfold attrs; split <;> rfl

theorem attrs_preserve (n : Node) (i k h : String) (st : PState) :
    (attrs n i k h st).preserve = st.preserve := by unfold attrs; split <;> rfl

theorem attrs_trace (n : Node) (i k h : String) (st : PState) :
    (attrs n i k h st).trace = st.trace := by unfold attrs; split <;> rfl

theorem attrs_nextId (n : Node) (i k h : String) (st : PState) :
    (attrs n i k h st).nextId = st.nextId := by unfold attrs; split <;> rfl

theorem tagPushCore_ok (n : Node) (s : String) (esc pw inner outer closing : Bool)
    (st : PState) (hm : hasMarker s.data = false) :
    ∃ st', tagPushCore n s true esc pw inner outer closing st = .ok st' ∧
      st'.trace = st.trace ++ [.writeLit n.nid s] ∧
      st'.op = st.op ∧ st'.to_close = st.to_close ∧ st'.last_obj = st.last_obj ∧
      st'.preserve = st.preserve ∧ st'.depth = st.depth ∧ st'.nextId = st.nextId := by
  unfold tagPushCore
  obtain ⟨a, ha⟩ := write_lit_ok n s esc pw
    (indent n (if outer || (closing && st.last_obj == some n.nid) then trim n st
               else st)) hm
  rw [ha]
  refine ⟨_, rfl, ?_, ?_, ?_, ?_, ?_, ?_, ?_⟩ <;>
    simp [callP_trace, callP_op, callP_to_close, callP_last_obj, callP_preserve,
      callP_depth, callP_nextId, addTrace_trace, addTrace_op, addTrace_to_close,
      addTrace_last_obj, addTrace_preserve, addTrace_depth, addTrace_nextId,
      indent_trace, indent_op, indent_to_close, indent_last_obj, indent_preserve,
      indent_depth, indent_nextId, ite_pstate_trace, ite_pstate_op,
      ite_pstate_to_close, ite_pstate_last_obj, ite_pstate_preserve,
      ite_pstate_depth, ite_pstate_nextId, trim_trace, trim_op, trim_to_close,
      trim_last_obj, trim_preserve, trim_depth, trim_nextId]

theorem string_data_append (a b : String) : (a ++ b).data = a.data ++ b.data := rfl

theorem hasMarker_cons (c : Char) (l : List Char) (hc : c ≠ '@') :
    hasMarker (c :: l) = hasMarker l := by
  rw [hasMarker]
  split
  · rename_i h; exact absurd h.1 hc
  · rfl

theorem hasMarker_append_single (l : List Char) (c : Char) (h : hasMarker l = false)
    (hc : c ≠ '\x7b') : hasMarker (l ++ [c]) = false := by
  induction l with
  | nil =>
    rw [List.nil_append, hasMarker]
    split
    · rename_i h1
      simp [headIs] at h1
    · rfl
  | cons d l2 ih =>
    rw [hasMarker] at h
    split at h
    · cases h
    · rename_i h1
      rw [List.cons_append, hasMarker]
      split
      · rename_i h2
        exfalso
        cases l2 with
        | nil =>
          simp [headIs] at h2
          exact hc h2.2
        | cons e l3 => exact h1 ⟨h2.1, h2.2⟩
      · exact ih h

theorem tagOpenValue_noneV (n : Node) (t : TagData) (hval : t.value = .noneV) :
    ∀ st3 : PState, tagOpenValue n t st3 = .ok st3 := by
  intro st3
  unfold tagOpenValue
  rw [hval]
  rfl

theorem tagOpen_ok (n : Node) (t : TagData) (st : PState)
    (hm : hasMarker t.tagname.data = false) (hval : t.value = .noneV) :
    ∃ st', tagOpen n t st = .ok st' ∧
      st'.trace = st.trace ++ [.writeLit n.nid ("<" ++ t.tagname),
        .writeLit n.nid (if tagAuto st.op t && (st.op.format == "xhtml") then "/>"
                         else ">")] ∧
      st'.op = st.op ∧ st'.to_close = st.to_close ∧ st'.last_obj = st.last_obj ∧
      st'.nextId = st.nextId ∧ st'.depth = st.depth := by
  have hmOpen : hasMarker ("<" ++ t.tagname).data = false := by
    rw [string_data_append]
    rw [show ("<" : String).data = ['<'] from rfl]
    rw [List.cons_append, List.nil_append]
    rw [hasMarker_cons '<' t.tagname.data (by decide)]
    exact hm
  unfold tagOpen tagPush
  obtain ⟨st1, h1, ht1, hop1, htc1, hlo1, hpr1, hd1, hn1⟩ :=
    tagPushCore_ok n ("<" ++ t.tagname) false false _ _ false st hmOpen
  rw [h1]
  dsimp only
  rw [attrs_op, hop1]
  obtain ⟨a2, ha2⟩ := write_lit_ok n
    (if tagAuto st.op t && (st.op.format == "xhtml") then "/>" else ">") false false
    (attrs n t.id t.klass t.hash st1) (by split <;> decide)
  rw [ha2]
  dsimp only
  rw [tagOpenValue_noneV n t hval]
  refine ⟨_, rfl, ?_, ?_, ?_, ?_, ?_, ?_⟩ <;>
    simp only [tagOpenFinish] <;>
    simp [callP_trace, callP_op, callP_to_close, callP_last_obj, callP_preserve,
      callP_depth, callP_nextId, addTrace_trace, addTrace_op, addTrace_to_close,
      addTrace_last_obj, addTrace_preserve, addTrace_depth, addTrace_nextId,
      attrs_trace, attrs_op, attrs_to_close, attrs_last_obj, attrs_preserve,
      attrs_depth, attrs_nextId, ite_pstate_trace, ite_pstate_op,
      ite_pstate_to_close, ite_pstate_last_obj, ite_pstate_preserve,
      ite_pstate_depth, ite_pstate_nextId, ht1, hop1, htc1, hlo1, hpr1, hd1, hn1]

theorem tagClose_ok (n : Node) (t : TagData) (st : PState)
    (hm : hasMarker t.tagname.data = false)
    (hlast : (tagValueTruthy t.value || t.selfclose) = true → st.last_obj = some n.nid) :
    ∃ st', tagClose n t st = .ok st' ∧
      st'.trace = st.trace ++ [.writeLit n.nid
        (if tagAuto st.op t then "" else "</" ++ t.tagname ++ ">")] ∧
      st'.op = st.op ∧ st'.to_close = st.to_close ∧ st'.nextId = st.nextId := by
  have hm2 : hasMarker ("</" ++ t.tagname ++ ">").data = false := by
    rw [show ("</" ++ t.tagname ++ ">").data
        = '<' :: '/' :: (t.tagname.data ++ ['>']) by
      rw [string_data_append, string_data_append]; rfl]
    rw [hasMarker_cons '<' _ (by decide), hasMarker_cons '/' _ (by decide)]
    exact hasMarker_append_single t.tagname.data '>' hm (by decide)
  unfold tagClose
  have hfirst : (if (tagValueTruthy t.value || t.selfclose : Bool) then no_nesting n st
                 else .ok st) = .ok st := by
    split
    · rename_i hc
      unfold no_nesting
      rw [if_pos (hlast hc)]
    · rfl
  rw [hfirst]
  dsimp only
  cases hA : tagAuto st.op t with
  | false =>
    rw [show ((if tagPreserve st.op t then { st with preserve := st.preserve - 1 }
        else st) : PState).op = st.op by
      rw [ite_pstate_op]; simp]
    simp only [hA, Bool.not_false, Bool.true_and, Bool.or_true, Bool.true_or,
      Bool.and_true, if_true, Bool.not_true, Bool.false_and, Bool.false_or,
      Bool.and_false, if_false, Bool.or_false]
    unfold tagPush
    obtain ⟨st2, h2, ht2, hop2, htc2, hlo2, hpr2, hd2, hn2⟩ :=
      tagPushCore_ok n ("</" ++ t.tagname ++ ">") false false _ _ true
        (if tagPreserve st.op t then { st with preserve := st.preserve - 1 } else st) hm2
    rw [h2]
    refine ⟨_, rfl, ?_, ?_, ?_, ?_⟩ <;>
      simp [ht2, hop2, htc2, hn2, ite_pstate_trace, ite_pstate_op,
        ite_pstate_to_close, ite_pstate_nextId]
  | true =>
    rw [show ((if tagPreserve st.op t then { st with preserve := st.preserve - 1 }
        else st) : PState).op = st.op by
      rw [ite_pstate_op]; simp]
    simp only [hA, Bool.not_true, Bool.false_and, Bool.false_or, Bool.or_false,
      Bool.false_eq_true, if_false, if_true]
    unfold tagPush
    obtain ⟨st2, h2, ht2, hop2, htc2, hlo2, hpr2, hd2, hn2⟩ :=
      tagPushCore_ok n "" false false _ _ true
        (if tagPreserve st.op t then { st with preserve := st.preserve - 1 } else st)
        (by decide)
    rw [h2]
    refine ⟨_, rfl, ?_, ?_, ?_, ?_⟩ <;>
      simp [ht2, hop2, htc2, hn2, ite_pstate_trace, ite_pstate_op,
        ite_pstate_to_close, ite_pstate_nextId]

theorem tagClose_err (n : Node) (t : TagData) (st : PState)
    (hc : (tagValueTruthy t.value || t.selfclose) = true)
    (hlast : st.last_obj ≠ some n.nid) :
    tagClose n t st = .error (.nodeErr n.posinfo.1 n.posinfo.2 "illegal nesting") := by
  unfold tagClose
  rw [if_pos hc]
  unfold no_nesting
  rw [if_neg hlast]

theorem tagAuto_true_of (t : TagData) (op : Options) (hval : t.value = .noneV)
    (hsc : (t.selfclose || op.autoclose.contains t.tagname) = true) :
    tagAuto op t = true := by
  unfold tagAuto
  rw [hval]
  show (!tagValueTruthy TagValue.noneV && (t.selfclose || op.autoclose.contains t.tagname)) = true
  rw [hsc]
  rfl

theorem close_tag_string_ne_empty (t : TagData) : ("</" ++ t.tagname ++ ">") ≠ "" := by
  intro hEq
  have hd := congrArg String.data hEq
  rw [show ("</" ++ t.tagname ++ ">").data = '<' :: '/' :: (t.tagname.data ++ ['>']) by
    rw [string_data_append, string_data_append]; rfl] at hd
  cases hd

/-- C4: for a valueless tag whose name is in the configured `autoclose`
set (or that carries the explicit self-close marker): with
`format = "xhtml"`, `open()` emits the terminator `/>`, while with
`format = "html5"` (or `"html4"`) it emits `>`; in both cases `close()`
writes only the empty string (no closing-tag text).  Moreover, for any
valueless tag, `close()` writes the closing tag `</name>` if and only
if the tag is not auto. -/
theorem c4_selfclose_policy :
    (∀ (n : Node) (t : TagData) (st : PState),
      t.value = .noneV →
      (t.selfclose || st.op.autoclose.contains t.tagname) = true →
      hasMarker t.tagname.data = false →
      (st.op.format = "xhtml" →
        ∃ st', tagOpen n t st = .ok st' ∧
          st'.trace = st.trace ++ [.writeLit n.nid ("<" ++ t.tagname),
            .writeLit n.nid "/>"]) ∧
      ((st.op.format = "html5" ∨ st.op.format = "html4") →
        ∃ st', tagOpen n t st = .ok st' ∧
          st'.trace = st.trace ++ [.writeLit n.nid ("<" ++ t.tagname),
            .writeLit n.nid ">"]) ∧
      (st.last_obj = some n.nid →
        ∃ st', tagClose n t st = .ok st' ∧
          st'.trace = st.trace ++ [.writeLit n.nid ""]))
  ∧ (∀ (n : Node) (t : TagData) (st : PState),
      t.value = .noneV → hasMarker t.tagname.data = false →
      st.last_obj = some n.nid →
      ∃ st', tagClose n t st = .ok st' ∧
        (st'.trace = st.trace ++ [.writeLit n.nid ("</" ++ t.tagname ++ ">")] ↔
         tagAuto st.op t = false)) := by
  constructor
  · intro n t st hval hsc hm
    have hAuto : tagAuto st.op t = true := tagAuto_true_of t st.op hval hsc
    refine ⟨?_, ?_, ?_⟩
    · intro hf
      obtain ⟨st', h, ht, _⟩ := tagOpen_ok n t st hm hval
      refine ⟨st', h, ?_⟩
      rw [ht, hAuto, hf]
      simp
    · intro hf
      obtain ⟨st', h, ht, _⟩ := tagOpen_ok n t st hm hval
      refine ⟨st', h, ?_⟩
      rcases hf with hf | hf
      · rw [ht, hAuto, hf]; rfl
      · rw [ht, hAuto, hf]; rfl
    · intro hl
      obtain ⟨st', h, ht, _⟩ := tagClose_ok n t st hm (fun _ => hl)
      refine ⟨st', h, ?_⟩
      rw [ht, hAuto]
      simp
  · intro n t st hval hm hl
    obtain ⟨st', h, ht, _⟩ := tagClose_ok n t st hm (fun _ => hl)
    refine ⟨st', h, ?_⟩
    cases hA : tagAuto st.op t with
    | false =>
      rw [hA] at ht
      simp only [Bool.false_eq_true, if_false] at ht
      rw [ht]
      simp [hA]
    | true =>
      rw [hA] at ht
      simp only [if_pos rfl] at ht
      rw [ht]
      constructor
      · intro hEq
        have hlist := List.append_cancel_left hEq
        simp only [List.cons.injEq, TraceEv.writeLit.injEq, and_true, true_and] at hlist
        exact absurd hlist.symm (close_tag_string_ne_empty t)
      · intro hcon
        cases hcon

theorem c4_witness :
    (match tagOpen ⟨0, (1, "%img"), .tag { hash := "\x7b\x7d", tagname := "img" }, 0⟩
        { hash := "\x7b\x7d", tagname := "img" }
        { op := { format := "xhtml", autoclose := ["img"] }, last_obj := some 0 } with
     | .ok st' => st'.trace = [TraceEv.writeLit 0 "<img", TraceEv.writeLit 0 "/>"]
     | .error _ => False) ∧
    (match tagClose ⟨0, (1, "%img"), .tag { hash := "\x7b\x7d", tagname := "img" }, 0⟩
        { hash := "\x7b\x7d", tagname := "img" }
        { op := { format := "xhtml", autoclose := ["img"] }, last_obj := some 0 } with
     | .ok st' => st'.trace = [TraceEv.writeLit 0 ""]
     | .error _ => False) := by
  constructor
  · obtain ⟨st', h, ht⟩ :=
      ((c4_selfclose_policy.1 ⟨0, (1, "%img"), .tag { hash := "\x7b\x7d", tagname := "img" }, 0⟩
        { hash := "\x7b\x7d", tagname := "img" }
        { op := { format := "xhtml", autoclose := ["img"] }, last_obj := some 0 }
        rfl (by decide) (by decide)).1) rfl
    rw [h]
    exact ht
  · obtain ⟨st', h, ht⟩ :=
      ((c4_selfclose_policy.1 ⟨0, (1, "%img"), .tag { hash := "\x7b\x7d", tagname := "img" }, 0⟩
        { hash := "\x7b\x7d", tagname := "img" }
        { op := { format := "xhtml", autoclose := ["img"] }, last_obj := some 0 }
        rfl (by decide) (by decide)).2.2) rfl
    rw [h]
    exact ht

/-- C6: a node that forbids children raises the nesting-violation error
in `close()` exactly when it is no longer the last object processed:
`Content` and `Doctype` nodes close with an `illegal nesting` error if
and only if `last_obj` is not the node itself, and likewise a `Tag`
that is self-closed or carries a value; in particular, compiling a
`Content` line followed by a deeper child line raises the
`illegal nesting` `HamlParserException` carrying the content node's
position. -/
theorem c6_nesting_prohibition :
    (∀ (n : Node) (st : PState) (v : String), n.kind = .content v →
      closeNode n st = (if st.last_obj = some n.nid then .ok st
        else .error (.nodeErr n.posinfo.1 n.posinfo.2 "illegal nesting")))
  ∧ (∀ (n : Node) (st : PState) (xml : Bool) (ty : String), n.kind = .doctype xml ty →
      closeNode n st = (if st.last_obj = some n.nid then .ok st
        else .error (.nodeErr n.posinfo.1 n.posinfo.2 "illegal nesting")))
  ∧ (∀ (n : Node) (t : TagData) (st : PState), n.kind = .tag t →
      hasMarker t.tagname.data = false →
      (tagValueTruthy t.value || t.selfclose) = true →
      ((∃ e, closeNode n st = .error e) ↔ st.last_obj ≠ some n.nid))
  ∧ runDoc { format := "xhtml" }
      [{ posinfo := (1, "Hello"), kind := .content "Hello", depth := 0 },
       { posinfo := (2, "child"), kind := .content "child", depth := 1 }] =
      .error (.nodeErr 1 "Hello" "illegal nesting") := by
  refine ⟨?_, ?_, ?_, ?_⟩
  · intro n st v hk
    rcases n with ⟨nid, pos, k, dec⟩
    cases hk
    rfl
  · intro n st xml ty hk
    rcases n with ⟨nid, pos, k, dec⟩
    cases hk
    rfl
  · intro n t st hk hm hc
    rcases n with ⟨nid, pos, k, dec⟩
    cases hk
    constructor
    · intro hex hlast
      obtain ⟨e, he⟩ := hex
      obtain ⟨st', hok, _⟩ := tagClose_ok ⟨nid, pos, .tag t, dec⟩ t st hm (fun _ => hlast)
      rw [show closeNode ⟨nid, pos, .tag t, dec⟩ st
          = tagClose ⟨nid, pos, .tag t, dec⟩ t st from rfl, hok] at he
      cases he
    · intro hlast
      refine ⟨.nodeErr pos.1 pos.2 "illegal nesting", ?_⟩
      rw [show closeNode ⟨nid, pos, .tag t, dec⟩ st
          = tagClose ⟨nid, pos, .tag t, dec⟩ t st from rfl]
      exact tagClose_err ⟨nid, pos, .tag t, dec⟩ t st hc hlast
  · rfl

theorem c6_witness :
    closeNode ⟨5, (3, "text"), .content "text", 0⟩ { op := {}, last_obj := some 9 } =
      .error (.nodeErr 3 "text" "illegal nesting") := by
  rw [c6_nesting_prohibition.1 ⟨5, (3, "text"), .content "text", 0⟩
    { op := {}, last_obj := some 9 } "text" rfl]
  rfl

/-- C8: the doctype lookup satisfies: `(html5, "")` is exactly
`<!DOCTYPE html>`; `(xhtml, "strict")` is the XHTML 1.0 Strict
declaration; the empty subtype aliases `transitional` for both `xhtml`
and `html4`; and a doctype flagged XML emits the prolog
`<?xml version="1.0" encoding="{charset}"?>` with the charset
defaulting to `utf-8` when unspecified (`p_xmltype ""`). -/
theorem c8_doctype_table :
    doctypes "html5" "" = some "<!DOCTYPE html>"
  ∧ doctypes "xhtml" "strict" =
      some ("<!DOCTYPE html PUBLIC \"-//W3C//DTD XHTML 1.0 Strict//EN\" " ++
        "\"http://www.w3.org/TR/xhtml1/DTD/xhtml1-strict.dtd\">")
  ∧ doctypes "xhtml" "" = doctypes "xhtml" "transitional"
  ∧ doctypes "html4" "" = doctypes "html4" "transitional"
  ∧ p_xmltype "" = .doctype true "utf-8"
  ∧ (match openNode ⟨0, (1, "!!! XML"), p_xmltype "", 0⟩
        (initState { format := "xhtml" }) with
     | .ok st' => writeLits st'.trace = ["<?xml version=\"1.0\" encoding=\"utf-8\"?>"]
     | .error _ => False) :=
  ⟨rfl, rfl, rfl, rfl, rfl, rfl⟩

/-- C9: with `suppress_eval` active, reducing a silent-script line
raises the `python evaluation is not allowed` `HamlParserException`,
while reducing a script line substitutes the neutral empty expression
`""` and reducing an attribute dict substitutes the empty dict `{}`;
`p_script` and `p_dict` are total functions, so neither fails. -/
theorem c9_suppress_eval (op : Options) (h : op.suppress_eval = true) :
    (∀ (lineno lexpos : Nat) (value : String),
      p_silentscript op lineno lexpos value =
        .error (.parseErr lineno lexpos "python evaluation is not allowed"))
  ∧ (∀ t v : String, ∃ sd, p_script op t v = .script sd ∧ sd.value = "\"\"")
  ∧ (∀ d : Option String, p_dict op d = "\x7b\x7d") := by
  refine ⟨?_, ?_, ?_⟩
  · intro l x v
    unfold p_silentscript
    rw [if_pos h]
  · intro t v
    refine ⟨_, rfl, ?_⟩
    simp [mkScriptData, h]
  · intro d
    cases d with
    | none => rfl
    | some s =>
      unfold p_dict
      simp [h]

theorem c9_witness :
    p_silentscript { suppress_eval := true } 4 17 "for x in y:" =
      .error (.parseErr 4 17 "python evaluation is not allowed")
  ∧ p_dict { suppress_eval := true } (some "\x7b'a': 1\x7d") = "\x7b\x7d" :=
  ⟨(c9_suppress_eval { suppress_eval := true } rfl).1 4 17 "for x in y:",
   (c9_suppress_eval { suppress_eval := true } rfl).2.2 (some "\x7b'a': 1\x7d")⟩

theorem countBegin_append (a b : List TraceEv) (id : Nat) :
    countBegin (a ++ b) id = countBegin a id + countBegin b id :=
  List.count_append _ _ _

theorem countEnd_append (a b : List TraceEv) (id : Nat) :
    countEnd (a ++ b) id = countEnd a id + countEnd b id :=
  List.count_append _ _ _

theorem countStack_cons (n : Node) (l : List Node) (id : Nat) :
    countStack (n :: l) id = countStack l id + (if n.nid = id then 1 else 0) := by
  unfold countStack
  rw [List.map_cons, List.count_cons]
  simp [beq_iff_eq]

theorem countStack_append (a b : List Node) (id : Nat) :
    countStack (a ++ b) id = countStack a id + countStack b id := by
  unfold countStack
  rw [List.map_append, List.count_append]

theorem countStack_take_drop (l : List Node) (k : Nat) (id : Nat) :
    countStack l id = countStack (l.take k) id + countStack (l.drop k) id := by
  conv_lhs => rw [show l = l.take k ++ l.drop k from (List.take_append_drop k l).symm]
  exact countStack_append _ _ _

theorem countStack_pos_of_mem {m : Node} {l : List Node} (h : m ∈ l) :
    0 < countStack l m.nid := by
  unfold countStack
  rw [List.count_pos_iff]
  exact List.mem_map_of_mem _ h

theorem endEv_mem_of_countEnd_pos {tr : List TraceEv} {id : Nat}
    (h : 0 < countEnd tr id) : TraceEv.endEv id ∈ tr :=
  List.count_pos_iff.mp h

theorem emitsOnly_refl (st : PState) : EmitsOnly st st :=
  ⟨rfl, rfl, rfl, rfl, ⟨[], by simp⟩, fun _ => rfl, fun _ => rfl⟩

theorem emitsOnly_trans {a b c : PState} (h1 : EmitsOnly a b) (h2 : EmitsOnly b c) :
    EmitsOnly a c := by
  obtain ⟨o1, t1, l1, n1, ⟨tr1, htr1⟩, cb1, ce1⟩ := h1
  obtain ⟨o2, t2, l2, n2, ⟨tr2, htr2⟩, cb2, ce2⟩ := h2
  refine ⟨o2.trans o1, t2.trans t1, l2.trans l1, n2.trans n1,
    ⟨tr1 ++ tr2, ?_⟩, fun id => (cb2 id).trans (cb1 id),
    fun id => (ce2 id).trans (ce1 id)⟩
  rw [htr2, htr1, List.append_assoc]

theorem emitsOnly_same_trace {st st' : PState} (hop : st'.op = st.op)
    (htc : st'.to_close = st.to_close) (hlo : st'.last_obj = st.last_obj)
    (hni : st'.nextId = st.nextId) (htr : st'.trace = st.trace) :
    EmitsOnly st st' :=
  ⟨hop, htc, hlo, hni, ⟨[], by rw [htr, List.append_nil]⟩,
   fun id => by rw [htr], fun id => by rw [htr]⟩

theorem emitsOnly_callP (st : PState) (n : Node) (f : Option String)
    (a : List String) (s : String) : EmitsOnly st (callP st n f a s) :=
  emitsOnly_same_trace rfl rfl rfl rfl rfl

theorem emitsOnly_addTrace {st : PState} (e : TraceEv)
    (he : ∀ id, e ≠ .beginEv id ∧ e ≠ .endEv id) : EmitsOnly st (addTrace e st) := by
  refine ⟨rfl, rfl, rfl, rfl, ⟨[e], rfl⟩, fun id => ?_, fun id => ?_⟩
  · rw [addTrace_trace, countBegin_append]
    have : countBegin [e] id = 0 := by
      unfold countBegin
      rw [List.count_cons, List.count_nil]
      simp [(he id).1]
    omega
  · rw [addTrace_trace, countEnd_append]
    have : countEnd [e] id = 0 := by
      unfold countEnd
      rw [List.count_cons, List.count_nil]
      simp [(he id).2]
    omega

theorem emitsOnly_write {n : Node} {s : String} {l e p : Bool} {st st' : PState}
    (h : write n s l e p st = .ok st') : EmitsOnly st st' := by
  unfold write at h
  split at h
  · cases h
  · cases h
    have h1 : EmitsOnly st
        (addTrace (if l then TraceEv.writeLit n.nid s else TraceEv.writeExpr n.nid s) st) :=
      emitsOnly_addTrace _ (by
        intro id
        split <;> exact ⟨fun hcon => TraceEv.noConfusion hcon,
          fun hcon => TraceEv.noConfusion hcon⟩)
    exact emitsOnly_trans h1 (emitsOnly_callP _ _ _ _ _)

theorem emitsOnly_indent (n : Node) (st : PState) : EmitsOnly st (indent n st) :=
  emitsOnly_callP _ _ _ _ _

theorem emitsOnly_trim (n : Node) (st : PState) : EmitsOnly st (trim n st) :=
  emitsOnly_callP _ _ _ _ _

theorem emitsOnly_attrs (n : Node) (i k h : String) (st : PState) :
    EmitsOnly st (attrs n i k h st) := by
  unfold attrs
  split
  · exact emitsOnly_callP _ _ _ _ _
  · exact emitsOnly_refl _

theorem emitsOnly_scriptStmt (n : Node) (s : String) (st : PState) :
    EmitsOnly st (scriptStmt n s st) :=
  emitsOnly_callP _ _ _ _ _

theorem emitsOnly_enblock (st : PState) : EmitsOnly st (enblock st) :=
  emitsOnly_same_trace rfl rfl rfl rfl rfl

theorem emitsOnly_deblock (st : PState) : EmitsOnly st (deblock st) :=
  emitsOnly_same_trace rfl rfl rfl rfl rfl

theorem emitsOnly_entabOf (n : Node) (st : PState) : EmitsOnly st (entabOf n st) := by
  unfold entabOf
  rcases n with ⟨nid, pos, k, dec⟩
  cases k <;> first | exact emitsOnly_refl _ | exact emitsOnly_callP _ _ _ _ _

theorem emitsOnly_detabOf (n : Node) (st : PState) : EmitsOnly st (detabOf n st) := by
  unfold detabOf
  rcases n with ⟨nid, pos, k, dec⟩
  cases k <;> first | exact emitsOnly_refl _ | exact emitsOnly_callP _ _ _ _ _

theorem emitsOnly_pushH {n : Node} {s : String} {l e p : Bool} {st st' : PState}
    (h : pushH n s l e p st = .ok st') : EmitsOnly st st' := by
  unfold pushH at h
  exact emitsOnly_trans (emitsOnly_indent n st) (emitsOnly_write h)

theorem emitsOnly_pushLines {n : Node} {e : Bool} :
    ∀ {lines : List String} {st st' : PState},
    pushLines n lines e st = .ok st' → EmitsOnly st st' := by
  intro lines
  induction lines with
  | nil =>
    intro st st' h
    rw [pushLines] at h
    cases h
    exact emitsOnly_refl _
  | cons l rest ih =>
    intro st st' h
    rw [pushLines] at h
    split at h
    · cases h
    · rename_i st1 hst1
      exact emitsOnly_trans (emitsOnly_pushH hst1) (ih h)

theorem emitsOnly_preserve_update (st : PState) (x : Int) :
    EmitsOnly st { st with preserve := x } :=
  emitsOnly_same_trace rfl rfl rfl rfl rfl

theorem emitsOnly_ite {st : PState} (b : Prop) [Decidable b] {s1 s2 : PState}
    (h1 : EmitsOnly st s1) (h2 : EmitsOnly st s2) :
    EmitsOnly st (if b then s1 else s2) := by
  split
  · exact h1
  · exact h2

theorem emitsOnly_tagPushCore {n : Node} {s : String} {l e p i o c : Bool}
    {st st' : PState} (h : tagPushCore n s l e p i o c st = .ok st') :
    EmitsOnly st st' := by
  unfold tagPushCore at h
  split at h
  · cases h
  · rename_i st3 hst3
    cases h
    refine emitsOnly_trans (emitsOnly_trans ?_ (emitsOnly_write hst3)) ?_
    · exact emitsOnly_trans
        (emitsOnly_ite _ (emitsOnly_trim n st) (emitsOnly_refl st))
        (emitsOnly_indent _ _)
    · exact emitsOnly_ite _ (emitsOnly_trim _ _) (emitsOnly_refl _)

theorem emitsOnly_tagPush {n : Node} {t : TagData} {s : String} {c l e p : Bool}
    {st st' : PState} (h : tagPush n t s c l e p st = .ok st') : EmitsOnly st st' := by
  unfold tagPush at h
  exact emitsOnly_tagPushCore h

theorem emitsOnly_tagOpenValue {n : Node} {t : TagData} {st st' : PState}
    (h : tagOpenValue n t st = .ok st') : EmitsOnly st st' := by
  unfold tagOpenValue at h
  split at h
  · split at h
    · cases h
    · split at h
      · exact emitsOnly_write h
      · exact emitsOnly_write h
      · cases h
        exact emitsOnly_refl _
  · cases h
    exact emitsOnly_refl _

theorem emitsOnly_tagOpenFinish (t : TagData) (st : PState) :
    EmitsOnly st (tagOpenFinish t st) := by
  unfold tagOpenFinish
  exact emitsOnly_ite _ (emitsOnly_preserve_update _ _) (emitsOnly_refl _)

theorem emitsOnly_tagOpen {n : Node} {t : TagData} {st st' : PState}
    (h : tagOpen n t st = .ok st') : EmitsOnly st st' := by
  unfold tagOpen at h
  split at h
  · cases h
  · rename_i st1 h1
    dsimp only at h
    split at h
    · cases h
    · rename_i st3 h3
      split at h
      · cases h
      · rename_i st4 h4
        cases h
        refine emitsOnly_trans (emitsOnly_tagPush h1) ?_
        refine emitsOnly_trans (emitsOnly_attrs n t.id t.klass t.hash st1) ?_
        refine emitsOnly_trans (emitsOnly_write h3) ?_
        exact emitsOnly_trans (emitsOnly_tagOpenValue h4) (emitsOnly_tagOpenFinish _ _)

theorem emitsOnly_tagClose {n : Node} {t : TagData} {st st' : PState}
    (h : tagClose n t st = .ok st') : EmitsOnly st st' := by
  unfold tagClose at h
  split at h
  · cases h
  · rename_i st1 h1
    have hst1 : EmitsOnly st st1 := by
      split at h1
      · unfold no_nesting at h1
        split at h1
        · cases h1; exact emitsOnly_refl _
        · cases h1
      · cases h1; exact emitsOnly_refl _
    dsimp only at h
    refine emitsOnly_trans hst1 ?_
    refine emitsOnly_trans
      (emitsOnly_ite (tagPreserve st1.op t = true)
        (emitsOnly_preserve_update st1 (st1.preserve - 1)) (emitsOnly_refl st1)) ?_
    exact emitsOnly_tagPush h

theorem emitsOnly_commentOpen {n : Node} {v c : String} {st st' : PState}
    (h : commentOpen n v c st = .ok st') : EmitsOnly st st' := by
  unfold commentOpen at h
  exact emitsOnly_pushH h

theorem emitsOnly_commentClose {n : Node} {v c : String} {st st' : PState}
    (h : commentClose n v c st = .ok st') : EmitsOnly st st' := by
  unfold commentClose at h
  dsimp only at h
  split at h
  · exact emitsOnly_write h
  · exact emitsOnly_pushH h

theorem emitsOnly_doctypeOpen {n : Node} {xml : Bool} {ty : String} {st st' : PState}
    (h : doctypeOpen n xml ty st = .ok st') : EmitsOnly st st' := by
  unfold doctypeOpen at h
  split at h
  · exact emitsOnly_pushH h
  · split at h
    · exact emitsOnly_pushH h
    · cases h

theorem emitsOnly_no_nesting {n : Node} {st st' : PState}
    (h : no_nesting n st = .ok st') : EmitsOnly st st' := by
  unfold no_nesting at h
  split at h
  · cases h; exact emitsOnly_refl _
  · cases h

theorem emitsOnly_openNode0 {n : Node} {st st' : PState}
    (h : openNode0 n st = .ok st') : EmitsOnly st st' := by
  unfold openNode0 at h
  rcases n with ⟨nid, pos, k, dec⟩
  cases k with
  | tag t => exact emitsOnly_tagOpen h
  | content v => exact emitsOnly_pushH h
  | script sd => exact emitsOnly_pushH h
  | silentscript v =>
    cases h
    exact emitsOnly_trans (emitsOnly_scriptStmt _ _ _) (emitsOnly_enblock _)
  | doctype xml ty => exact emitsOnly_doctypeOpen h
  | comment v c => exact emitsOnly_commentOpen h
  | filterPlain lines => exact emitsOnly_pushLines h
  | filterEscaped lines => exact emitsOnly_pushLines h
  | filterJavascript lines => cases h; exact emitsOnly_refl _
  | cdata => exact emitsOnly_pushH h

theorem emitsOnly_closeNode {n : Node} {st st' : PState}
    (h : closeNode n st = .ok st') : EmitsOnly st st' := by
  unfold closeNode at h
  rcases n with ⟨nid, pos, k, dec⟩
  cases k with
  | tag t => exact emitsOnly_tagClose h
  | content v => exact emitsOnly_no_nesting h
  | script sd => cases h; exact emitsOnly_refl _
  | silentscript v => cases h; exact emitsOnly_deblock _
  | doctype xml ty => exact emitsOnly_no_nesting h
  | comment v c => exact emitsOnly_commentClose h
  | filterPlain lines => cases h; exact emitsOnly_refl _
  | filterEscaped lines => cases h; exact emitsOnly_refl _
  | filterJavascript lines => cases h; exact emitsOnly_refl _
  | cdata => exact emitsOnly_pushH h

theorem countBegin_endEv_single (m id : Nat) : countBegin [TraceEv.endEv m] id = 0 := by
  simp [countBegin, List.count_cons, List.count_nil]

theorem countEnd_endEv_single (m id : Nat) :
    countEnd [TraceEv.endEv m] id = if m = id then 1 else 0 := by
  simp only [countEnd, List.count_cons, List.count_nil, beq_iff_eq]
  by_cases h : m = id
  · rw [if_pos h, if_pos (by rw [h])]
  · rw [if_neg h, if_neg (by intro hcon; exact h (TraceEv.endEv.inj hcon.symm).symm)]

theorem countBegin_beginEv_single (m id : Nat) :
    countBegin [TraceEv.beginEv m] id = if m = id then 1 else 0 := by
  simp only [countBegin, List.count_cons, List.count_nil, beq_iff_eq]
  by_cases h : m = id
  · rw [if_pos h, if_pos (by rw [h])]
  · rw [if_neg h, if_neg (by intro hcon; exact h (TraceEv.beginEv.inj hcon.symm).symm)]

theorem countEnd_beginEv_single (m id : Nat) : countEnd [TraceEv.beginEv m] id = 0 := by
  simp [countEnd, List.count_cons, List.count_nil]

theorem endObj_shape {n : Node} {st st' : PState} (h : endObj n st = .ok st') :
    st'.op = st.op ∧ st'.to_close = st.to_close ∧ st'.last_obj = st.last_obj ∧
    st'.nextId = st.nextId ∧ (∃ tr', st'.trace = st.trace ++ tr') ∧
    (∀ id, countBegin st'.trace id = countBegin st.trace id) ∧
    (∀ id, countEnd st'.trace id = countEnd st.trace id + (if n.nid = id then 1 else 0)) := by
  unfold endObj at h
  have h3 := emitsOnly_trans
    (emitsOnly_detabOf n (addTrace (.endEv n.nid) st)) (emitsOnly_closeNode h)
  obtain ⟨ho, htc, hlo, hni, ⟨tr', htr⟩, hcb, hce⟩ := h3
  rw [addTrace_trace] at htr
  refine ⟨ho, htc, hlo, hni,
    ⟨.endEv n.nid :: tr', by rw [htr, List.append_assoc]; rfl⟩, ?_, ?_⟩
  · intro id
    rw [hcb id, addTrace_trace, countBegin_append, countBegin_endEv_single]
    omega
  · intro id
    rw [hce id, addTrace_trace, countEnd_append, countEnd_endEv_single]

theorem popLoop_noop (fuel depth : Nat) (st : PState) (h : st.to_close.length ≤ depth) :
    popLoop fuel depth st = .ok st := by
  cases fuel with
  | zero => rfl
  | succ f =>
    rw [popLoop, if_neg (by omega)]

theorem popLoop_shape :
    ∀ (fuel depth : Nat) (st st' : PState), st.to_close.length ≤ fuel →
    popLoop fuel depth st = .ok st' →
    st'.op = st.op ∧ st'.last_obj = st.last_obj ∧ st'.nextId = st.nextId ∧
    st'.to_close = st.to_close.drop (st.to_close.length - depth) ∧
    (∃ tr', st'.trace = st.trace ++ tr') ∧
    (∀ id, countBegin st'.trace id = countBegin st.trace id) ∧
    (∀ id, countEnd st'.trace id = countEnd st.trace id +
      countStack (st.to_close.take (st.to_close.length - depth)) id) := by
  intro fuel
  induction fuel with
  | zero =>
    intro depth st st' hfuel h
    rw [popLoop] at h
    cases h
    have hnil : st.to_close = [] := List.length_eq_zero.mp (by omega)
    rw [hnil]
    exact ⟨rfl, rfl, rfl, by simp, ⟨[], by simp⟩, fun _ => rfl, fun id => by
      simp [countStack, List.count_nil]⟩
  | succ f ih =>
    intro depth st st' hfuel h
    rw [popLoop] at h
    split at h
    · rename_i hgt
      split at h
      · rename_i hmatch
        rw [hmatch] at hgt
        exact absurd hgt (by simp)
      · rename_i n rest hmatch
        split at h
        · cases h
        · rename_i st1 hend
          obtain ⟨eo, etc, elo, eni, ⟨etr, ehtr⟩, ecb, ece⟩ := endObj_shape hend
          dsimp only at eo etc elo eni ehtr ecb ece
          have hlen : st.to_close.length = rest.length + 1 := by rw [hmatch]; rfl
          have hrest : st1.to_close = rest := etc
          have hst1len : st1.to_close.length ≤ f := by
            rw [hrest]
            omega
          obtain ⟨po, plo, pni, ptc, ⟨ptr, phtr⟩, pcb, pce⟩ := ih depth st1 st' hst1len h
          have hdropgoal : st.to_close.drop (st.to_close.length - depth)
              = rest.drop (rest.length - depth) := by
            rw [hlen, hmatch]
            have heq : rest.length + 1 - depth = (rest.length - depth) + 1 := by omega
            rw [heq]
            rfl
          have htakegoal : st.to_close.take (st.to_close.length - depth)
              = n :: rest.take (rest.length - depth) := by
            rw [hlen, hmatch]
            have heq : rest.length + 1 - depth = (rest.length - depth) + 1 := by omega
            rw [heq]
            rfl
          refine ⟨po.trans eo, plo.trans elo, pni.trans eni, ?_, ?_, ?_, ?_⟩
          · rw [ptc, hrest, hdropgoal]
          · refine ⟨etr ++ ptr, ?_⟩
            rw [phtr, ehtr, List.append_assoc]
          · intro id
            rw [pcb id, ecb id]
          · intro id
            rw [pce id, ece id, hrest, htakegoal, countStack_cons]
            omega
    · cases h
      rename_i hle
      have hz : st.to_close.length - depth = 0 := by omega
      rw [hz]
      exact ⟨rfl, rfl, rfl, by simp, ⟨[], by simp⟩, fun _ => rfl, fun id => by
        simp [countStack, List.count_nil]⟩

theorem countBegin_lifecycle (m id : Nat) :
    countBegin [TraceEv.beginEv m, TraceEv.lastSet m, TraceEv.openEv m] id
      = if m = id then 1 else 0 := by
  by_cases h : m = id <;> simp [countBegin, List.count_cons, h]

theorem countEnd_lifecycle (m id : Nat) :
    countEnd [TraceEv.beginEv m, TraceEv.lastSet m, TraceEv.openEv m] id = 0 := by
  simp [countEnd, List.count_cons]

theorem begin0_nopop_shape {n : Node} {depth : Nat} {st st' : PState}
    (hd : st.to_close.length ≤ depth) (h : beginWith openNode0 n depth st = .ok st') :
    st'.to_close = { n with declared := depth } :: st.to_close ∧
    st'.op = st.op ∧ st'.nextId = st.nextId ∧
    (∃ tr', st'.trace = st.trace ++ tr') ∧
    (∀ id, countBegin st'.trace id =
      countBegin st.trace id + (if n.nid = id then 1 else 0)) ∧
    (∀ id, countEnd st'.trace id = countEnd st.trace id) := by
  unfold beginWith at h
  rw [popLoop_noop st.to_close.length depth (addTrace (.beginEv n.nid) st) hd] at h
  dsimp only at h
  split at h
  · cases h
  · rename_i st3 h3
    cases h
    obtain ⟨ho3, htc3, hlo3, hni3, ⟨tr3, htr3⟩, hcb3, hce3⟩ := emitsOnly_openNode0 h3
    obtain ⟨ho4, htc4, hlo4, hni4, ⟨tr4, htr4⟩, hcb4, hce4⟩ :=
      emitsOnly_trans
        (@emitsOnly_addTrace st3 (.entabEv n.nid)
          (fun id => ⟨fun hc => TraceEv.noConfusion hc, fun hc => TraceEv.noConfusion hc⟩))
        (emitsOnly_entabOf n (addTrace (.entabEv n.nid) st3))
    have hDtrace : (addTrace (.openEv n.nid) (addTrace (.lastSet n.nid)
        { addTrace (.beginEv n.nid) st with last_obj := some n.nid })).trace
        = st.trace ++ [.beginEv n.nid, .lastSet n.nid, .openEv n.nid] := by
      simp [addTrace]
    refine ⟨?_, ?_, ?_, ?_, ?_, ?_⟩
    · show ({ n with declared := depth } :: _ : List Node) = _
      rw [htc4, htc3]
      rfl
    · show (entabOf n (addTrace (.entabEv n.nid) st3)).op = st.op
      rw [ho4, ho3]
      rfl
    · show (entabOf n (addTrace (.entabEv n.nid) st3)).nextId = st.nextId
      rw [hni4, hni3]
      rfl
    · refine ⟨[.beginEv n.nid, .lastSet n.nid, .openEv n.nid] ++ tr3 ++ tr4, ?_⟩
      show (entabOf n (addTrace (.entabEv n.nid) st3)).trace = _
      rw [htr4, htr3, hDtrace]
      simp [List.append_assoc]
    · intro id
      show countBegin (entabOf n (addTrace (.entabEv n.nid) st3)).trace id = _
      rw [hcb4 id, hcb3 id, hDtrace, countBegin_append, countBegin_lifecycle]
    · intro id
      show countEnd (entabOf n (addTrace (.entabEv n.nid) st3)).trace id = _
      rw [hce4 id, hce3 id, hDtrace, countEnd_append, countEnd_lifecycle]
      omega

theorem openNode_shape_of_emitsOnly {st st' : PState} (hE : EmitsOnly st st') :
    st'.op = st.op ∧ st.nextId ≤ st'.nextId ∧
    (∃ mid, st'.to_close = mid ++ st.to_close) ∧
    (∃ tr', st'.trace = st.trace ++ tr') ∧
    (∀ id, countEnd st'.trace id = countEnd st.trace id) ∧
    (∀ id, ∃ k, k ≤ 1 ∧
      countBegin st'.trace id = countBegin st.trace id + k ∧
      countStack st'.to_close id = countStack st.to_close id + k ∧
      (k = 1 → st.nextId ≤ id ∧ id < st'.nextId)) := by
  obtain ⟨ho, htc, hlo, hni, ⟨tr', htr⟩, hcb, hce⟩ := hE
  refine ⟨ho, by omega, ⟨[], by rw [htc]; rfl⟩, ⟨tr', htr⟩, hce, fun id => ?_⟩
  exact ⟨0, by omega, by rw [hcb id]; omega, by rw [htc]; omega,
    fun hcon => absurd hcon (by omega)⟩

theorem cons_ne_self (c : Node) (l : List Node) : c :: l ≠ l := by
  intro hcon
  exact absurd (congrArg List.length hcon) (by simp)

theorem jsOpen_shape {n : Node} {lines : List String} {st st' : PState}
    (h : jsOpen n lines st = .ok st') :
    st'.op = st.op ∧ st.nextId ≤ st'.nextId ∧
    (∃ mid, st'.to_close = mid ++ st.to_close) ∧
    (∃ tr', st'.trace = st.trace ++ tr') ∧
    (∀ id, countEnd st'.trace id = countEnd st.trace id) ∧
    (∀ id, ∃ k, k ≤ 1 ∧
      countBegin st'.trace id = countBegin st.trace id + k ∧
      countStack st'.to_close id = countStack st.to_close id + k ∧
      (k = 1 → st.nextId ≤ id ∧ id < st'.nextId)) := by
  unfold jsOpen mkNode at h
  dsimp only at h
  split at h
  · cases h
  · rename_i st2 hb1
    obtain ⟨btc1, bop1, bni1, ⟨btr1, bhtr1⟩, bcb1, bce1⟩ :=
      begin0_nopop_shape (by dsimp only; omega) hb1
    dsimp only at btc1 bop1 bni1 bhtr1 bcb1 bce1
    split at h
    · cases h
    · rename_i st4 hb2
      have hst4 : st4.op = st2.op ∧
          ((st4.to_close = st2.to_close ∧ st4.nextId = st2.nextId) ∨
            (∃ cd : Node, cd.nid = st2.nextId ∧ st4.to_close = cd :: st2.to_close ∧
              st4.nextId = st2.nextId + 1)) ∧
          (∃ tr2, st4.trace = st2.trace ++ tr2) ∧
          (∀ id, countEnd st4.trace id = countEnd st2.trace id) ∧
          (∀ id, countBegin st4.trace id = countBegin st2.trace id +
            (if st4.to_close = st2.to_close then 0
             else if st2.nextId = id then 1 else 0)) := by
        split at hb2
        · obtain ⟨ctc, cop, cni, ⟨ctr, chtr⟩, ccb, cce⟩ :=
            begin0_nopop_shape (by dsimp only; rw [btc1]; simp) hb2
          dsimp only at ctc cop cni chtr ccb cce
          refine ⟨cop, .inr ⟨_, rfl, ctc, cni⟩, ⟨ctr, chtr⟩, cce, fun id => ?_⟩
          rw [ccb id, ctc, if_neg (cons_ne_self _ _)]
        · cases hb2
          refine ⟨rfl, .inl ⟨rfl, rfl⟩, ⟨[], by simp⟩, fun _ => rfl, fun id => ?_⟩
          rw [if_pos rfl]
          omega
      obtain ⟨cop, hcases, ⟨tr2, chtr⟩, cce, ccb⟩ := hst4
      obtain ⟨po, ptc, plo, pni, ⟨ptr, phtr⟩, pcb, pce⟩ := emitsOnly_pushLines h
      have hni2 : st2.nextId = st.nextId + 1 := bni1
      have hni4 : st4.nextId = st.nextId + 1 ∨ st4.nextId = st.nextId + 2 := by
        rcases hcases with ⟨hsame, hsni⟩ | ⟨cd, hcd, hcons, hcni⟩
        · left; rw [hsni, hni2]
        · right; rw [hcni, hni2]
      refine ⟨?_, ?_, ?_, ?_, ?_, ?_⟩
      · rw [po, cop, bop1]
      · rw [pni]
        omega
      · rcases hcases with ⟨hsame, hsni⟩ | ⟨cd, hcd, hcons, hcni⟩
        · exact ⟨[_], by rw [ptc, hsame, btc1]; rfl⟩
        · exact ⟨[cd, _], by rw [ptc, hcons, btc1]; rfl⟩
      · refine ⟨btr1 ++ tr2 ++ ptr, ?_⟩
        rw [phtr, chtr, bhtr1]
        simp [List.append_assoc]
      · intro id
        rw [pce id, cce id, bce1 id]
      · intro id
        have hcb' : countBegin st'.trace id
            = countBegin st.trace id + (if st.nextId = id then 1 else 0)
              + (if st4.to_close = st2.to_close then 0
                 else if st2.nextId = id then 1 else 0) := by
          rw [pcb id, ccb id, bcb1 id]
        have hcs2 : countStack st2.to_close id
            = countStack st.to_close id + (if st.nextId = id then 1 else 0) := by
          rw [btc1, countStack_cons]
        rcases hcases with ⟨hsame, hsni⟩ | ⟨cd, hcd, hcons, hcni⟩
        · rw [if_pos hsame] at hcb'
          have hcs' : countStack st'.to_close id
              = countStack st.to_close id + (if st.nextId = id then 1 else 0) := by
            rw [ptc, hsame, hcs2]
          by_cases h1 : st.nextId = id
          · rw [if_pos h1] at hcb' hcs'
            exact ⟨1, by omega, by omega, by omega,
              fun _ => ⟨by omega, by rw [pni]; omega⟩⟩
          · rw [if_neg h1] at hcb' hcs'
            exact ⟨0, by omega, by omega, by omega, fun hcon => absurd hcon (by omega)⟩
        · rw [if_neg (show ¬(st4.to_close = st2.to_close) from
            by rw [hcons]; exact cons_ne_self _ _)] at hcb'
          have hcs' : countStack st'.to_close id
              = countStack st.to_close id + (if st.nextId = id then 1 else 0)
                + (if st2.nextId = id then 1 else 0) := by
            rw [ptc, hcons, countStack_cons, hcs2, hcd]
          by_cases h1 : st.nextId = id
          · have h2 : ¬(st2.nextId = id) := by rw [hni2]; omega
            rw [if_pos h1] at hcb' hcs'
            rw [if_neg h2] at hcb' hcs'
            exact ⟨1, by omega, by omega, by omega,
              fun _ => ⟨by omega, by rw [pni]; omega⟩⟩
          · by_cases h2 : st2.nextId = id
            · rw [if_neg h1] at hcb' hcs'
              rw [if_pos h2] at hcb' hcs'
              refine ⟨1, by omega, by omega, by omega, fun _ => ⟨?_, ?_⟩⟩
              · rw [hni2] at h2
                omega
              · rw [pni]
                omega
            · rw [if_neg h1] at hcb' hcs'
              rw [if_neg h2] at hcb' hcs'
              exact ⟨0, by omega, by omega, by omega, fun hcon => absurd hcon (by omega)⟩

theorem openNode_shape {n : Node} {st st' : PState} (h : openNode n st = .ok st') :
    st'.op = st.op ∧ st.nextId ≤ st'.nextId ∧
    (∃ mid, st'.to_close = mid ++ st.to_close) ∧
    (∃ tr', st'.trace = st.trace ++ tr') ∧
    (∀ id, countEnd st'.trace id = countEnd st.trace id) ∧
    (∀ id, ∃ k, k ≤ 1 ∧
      countBegin st'.trace id = countBegin st.trace id + k ∧
      countStack st'.to_close id = countStack st.to_close id + k ∧
      (k = 1 → st.nextId ≤ id ∧ id < st'.nextId)) := by
  unfold openNode at h
  split at h
  · exact jsOpen_shape h
  · exact openNode_shape_of_emitsOnly (emitsOnly_openNode0 h)

/-- C1 (amended): `begin(node, depth)` pops entries by STACK LENGTH, not by
their declared depth: the entries popped (each of their ids receiving an
`end` event) are exactly the topmost `to_close.length - depth` entries of
the open-node stack, whatever their declared depths; then the node is
recorded as the last object, `open` and `entab` run, and the node is pushed
(above any nodes its own `open` created) with `declared = depth`. -/
theorem c1_begin_pops_by_stack_length {n : Node} {depth : Nat} {st st' : PState}
    (h : begin n depth st = .ok st') :
    (∃ mid, st'.to_close = { n with declared := depth } ::
      (mid ++ st.to_close.drop (st.to_close.length - depth))) ∧
    (∀ m ∈ st.to_close.take (st.to_close.length - depth),
      TraceEv.endEv m.nid ∈ st'.trace) ∧
    TraceEv.beginEv n.nid ∈ st'.trace ∧
    TraceEv.lastSet n.nid ∈ st'.trace ∧
    TraceEv.openEv n.nid ∈ st'.trace ∧
    TraceEv.entabEv n.nid ∈ st'.trace := by
  unfold begin beginWith at h
  split at h
  · cases h
  · rename_i st1 hpop
    dsimp only at h
    split at h
    · cases h
    · rename_i st3 hopen
      cases h
      obtain ⟨_, _, _, ptc, ⟨ptr, phtr⟩, _, pce⟩ :=
        popLoop_shape st.to_close.length depth (addTrace (.beginEv n.nid) st) st1
          (by simp [addTrace_to_close]) hpop
      simp only [addTrace_to_close] at ptc
      simp only [addTrace_trace] at phtr
      simp only [addTrace_to_close, addTrace_trace] at pce
      obtain ⟨_, _, ⟨mid, omid⟩, ⟨otr, ohtr⟩, _, _⟩ := openNode_shape hopen
      simp only [addTrace_to_close] at omid
      simp only [addTrace_trace] at ohtr
      obtain ⟨_, etc4, _, _, ⟨etr, ehtr⟩, _, _⟩ :=
        emitsOnly_entabOf n (addTrace (.entabEv n.nid) st3)
      simp only [addTrace_to_close] at etc4
      simp only [addTrace_trace] at ehtr
      refine ⟨⟨mid, ?_⟩, ?_, ?_, ?_, ?_, ?_⟩
      · show ({ n with declared := depth } ::
          (entabOf n (addTrace (.entabEv n.nid) st3)).to_close : List Node) = _
        rw [etc4, omid]
        show ({ n with declared := depth } :: (mid ++ st1.to_close) : List Node) = _
        rw [ptc]
      · intro m hm
        have hpos : 0 < countEnd st1.trace m.nid := by
          have h1 := countStack_pos_of_mem hm
          have h2 := pce m.nid
          omega
        have hmem1 : TraceEv.endEv m.nid ∈ st1.trace := endEv_mem_of_countEnd_pos hpos
        show TraceEv.endEv m.nid ∈ (entabOf n (addTrace (.entabEv n.nid) st3)).trace
        rw [ehtr, ohtr]
        simp [List.mem_append, hmem1]
      · have hmem1 : TraceEv.beginEv n.nid ∈ st1.trace := by
          rw [phtr]; simp
        show TraceEv.beginEv n.nid ∈ (entabOf n (addTrace (.entabEv n.nid) st3)).trace
        rw [ehtr, ohtr]
        simp [List.mem_append, hmem1]
      · show TraceEv.lastSet n.nid ∈ (entabOf n (addTrace (.entabEv n.nid) st3)).trace
        rw [ehtr, ohtr]
        simp [List.mem_append]
      · show TraceEv.openEv n.nid ∈ (entabOf n (addTrace (.entabEv n.nid) st3)).trace
        rw [ehtr, ohtr]
        simp [List.mem_append]
      · show TraceEv.entabEv n.nid ∈ (entabOf n (addTrace (.entabEv n.nid) st3)).trace
        rw [ehtr, ohtr]
        simp [List.mem_append]

theorem c1_begin_pops_by_stack_length_witness :
    ∃ st', begin ⟨0, (1, "x"), .content "hi", 0⟩ 0
        (initState { format := "xhtml" }) = .ok st' ∧
      TraceEv.entabEv 0 ∈ st'.trace := by
  obtain ⟨st', hE⟩ : ∃ st', begin ⟨0, (1, "x"), .content "hi", 0⟩ 0
      (initState { format := "xhtml" }) = .ok st' := ⟨_, rfl⟩
  exact ⟨st', hE, (c1_begin_pops_by_stack_length hE).2.2.2.2.2⟩

/-- C1 counterexample to "the nodes popped are exactly those whose declared
depth is greater than depth": under xhtml, a `:javascript` filter begun at
depth 1 opens a synthesized `script` tag and a CData node beneath itself, so
the stack reads (nid, declared) = [(1, 1), (3, 3), (2, 2), (0, 0)] top-first.
A following node at depth 1 pops by stack length down to one entry: node 1
receives an `end` event although its declared depth 1 is NOT greater than 1. -/
theorem c1_counterexample :
    ∃ st1 st2,
      runEvents
        [⟨(1, "A"), .content "A", 0⟩, ⟨(2, ":javascript"), .filterJavascript [], 1⟩]
        (initState { format := "xhtml" }) = .ok st1 ∧
      st1.to_close.map (fun m => (m.nid, m.declared)) =
        [(1, 1), (3, 3), (2, 2), (0, 0)] ∧
      processEvent st1 ⟨(3, "B"), .content "B", 1⟩ = .ok st2 ∧
      st2.to_close.map (fun m => (m.nid, m.declared)) = [(4, 1), (0, 0)] ∧
      TraceEv.endEv 1 ∈ st2.trace ∧
      ¬ (1 > 1) :=
  ⟨_, _, rfl, by decide, rfl, by decide, by decide, by decide⟩

theorem countBegin_lastSet_single (m id : Nat) :
    countBegin [TraceEv.lastSet m] id = 0 := by
  simp [countBegin, List.count_cons, List.count_nil]

theorem countBegin_openEv_single (m id : Nat) :
    countBegin [TraceEv.openEv m] id = 0 := by
  simp [countBegin, List.count_cons, List.count_nil]

theorem countEnd_lastSet_single (m id : Nat) :
    countEnd [TraceEv.lastSet m] id = 0 := by
  simp [countEnd, List.count_cons, List.count_nil]

theorem countEnd_openEv_single (m id : Nat) :
    countEnd [TraceEv.openEv m] id = 0 := by
  simp [countEnd, List.count_cons, List.count_nil]

/-- `begin` preserves the stack-discipline invariant when called on a
fresh node (id already allocated, never begun). -/
theorem begin_inv {n : Node} {depth : Nat} {st st' : PState}
    (hI : StackInv st) (hn : n.nid < st.nextId)
    (hfresh : countBegin st.trace n.nid = 0)
    (h : begin n depth st = .ok st') :
    StackInv st' ∧ st.nextId ≤ st'.nextId := by
  obtain ⟨i1, i2, i3⟩ := hI
  unfold begin beginWith at h
  split at h
  · cases h
  · rename_i st1 hpop
    dsimp only at h
    split at h
    · cases h
    · rename_i st3 hopen
      cases h
      obtain ⟨_, _, p_ni, ptc, _, pcb, pce⟩ :=
        popLoop_shape st.to_close.length depth (addTrace (.beginEv n.nid) st) st1
          (by simp [addTrace_to_close]) hpop
      simp only [addTrace_to_close, addTrace_trace, addTrace_nextId] at p_ni ptc pcb pce
      obtain ⟨_, o_ni, _, _, oce, okk⟩ := openNode_shape hopen
      simp only [addTrace_to_close, addTrace_trace, addTrace_nextId] at o_ni oce okk
      obtain ⟨_, e_tc, _, e_ni, _, e_cb, e_ce⟩ :=
        emitsOnly_trans
          (@emitsOnly_addTrace st3 (.entabEv n.nid)
            (fun id => ⟨fun hc => TraceEv.noConfusion hc, fun hc => TraceEv.noConfusion hc⟩))
          (emitsOnly_entabOf n (addTrace (.entabEv n.nid) st3))
      have hcb1 : ∀ id, countBegin st1.trace id
          = countBegin st.trace id + (if n.nid = id then 1 else 0) := fun id => by
        rw [pcb id, countBegin_append, countBegin_beginEv_single]
      have hce1 : ∀ id, countEnd st1.trace id = countEnd st.trace id
          + countStack (st.to_close.take (st.to_close.length - depth)) id := fun id => by
        rw [pce id, countEnd_append, countEnd_beginEv_single]
        omega
      have hce3 : ∀ id, countEnd st3.trace id = countEnd st1.trace id := fun id => by
        rw [oce id, countEnd_append, countEnd_append, countEnd_lastSet_single,
          countEnd_openEv_single]
        omega
      have hcb3 : ∀ id, ∃ k, k ≤ 1 ∧
          countBegin st3.trace id = countBegin st1.trace id + k ∧
          countStack st3.to_close id = countStack st1.to_close id + k ∧
          (k = 1 → st.nextId ≤ id ∧ id < st3.nextId) := fun id => by
        obtain ⟨k, hk1, hkb, hks, hkf⟩ := okk id
        refine ⟨k, hk1, ?_, hks, ?_⟩
        · rw [hkb, countBegin_append, countBegin_append, countBegin_lastSet_single,
            countBegin_openEv_single]
          omega
        · intro hk
          obtain ⟨ha, hb⟩ := hkf hk
          rw [p_ni] at ha
          exact ⟨ha, hb⟩
      refine ⟨⟨fun id => ?_, fun id => ?_, fun id hid => ?_⟩, ?_⟩
      · dsimp only
        obtain ⟨k, hk1, hkb, hks, hkf⟩ := hcb3 id
        rw [e_cb id, e_ce id, countStack_cons, e_tc, hkb, hks, hce3 id, hcb1 id,
          hce1 id, ptc,
          show ({ n with declared := depth } : Node).nid = n.nid from rfl]
        have hsplit := countStack_take_drop st.to_close (st.to_close.length - depth) id
        have := i1 id
        omega
      · dsimp only
        obtain ⟨k, hk1, hkb, hks, hkf⟩ := hcb3 id
        rw [e_cb id, hkb, hcb1 id]
        by_cases hid : n.nid = id
        · subst hid
          have hk0 : k = 0 := by
            by_contra hne
            have hk' : k = 1 := by omega
            have := (hkf hk').1
            omega
          rw [if_pos rfl, hfresh, hk0]
        · rw [if_neg hid]
          by_cases hkk : k = 1
          · have h1 := (hkf hkk).1
            have h2 := (i3 id h1).1
            omega
          · have := i2 id
            omega
      · dsimp only at hid ⊢
        rw [e_ni] at hid
        have hidst : st.nextId ≤ id := by omega
        obtain ⟨f1, f2, f3⟩ := i3 id hidst
        obtain ⟨k, hk1, hkb, hks, hkf⟩ := hcb3 id
        have hk0 : k = 0 := by
          by_contra hne
          have hk' : k = 1 := by omega
          have := (hkf hk').2
          omega
        have hsplit := countStack_take_drop st.to_close (st.to_close.length - depth) id
        refine ⟨?_, ?_, ?_⟩
        · rw [e_cb id, hkb, hcb1 id, if_neg (show ¬ n.nid = id by omega)]
          omega
        · rw [e_ce id, hce3 id, hce1 id]
          omega
        · rw [countStack_cons, e_tc, hks, ptc,
            show ({ n with declared := depth } : Node).nid = n.nid from rfl,
            if_neg (show ¬ n.nid = id by omega)]
          omega
      · dsimp only
        rw [e_ni]
        omega

/-- `p_obj` preserves the stack-discipline invariant: the node it
constructs is fresh. -/
theorem processEvent_inv {st : PState} {ev : Ev} {st' : PState}
    (hI : StackInv st) (h : processEvent st ev = .ok st') : StackInv st' := by
  unfold processEvent mkNode at h
  dsimp only at h
  refine (begin_inv ?_ ?_ ?_ h).1
  · obtain ⟨i1, i2, i3⟩ := hI
    exact ⟨i1, i2, fun id hid => i3 id (by dsimp only at hid; omega)⟩
  · exact Nat.lt_succ_self _
  · exact (hI.2.2 st.nextId (le_refl _)).1

theorem runEvents_inv : ∀ (evs : List Ev) (st st' : PState), StackInv st →
    runEvents evs st = .ok st' → StackInv st' := by
  intro evs
  induction evs with
  | nil =>
    intro st st' hI h
    rw [runEvents] at h
    cases h
    exact hI
  | cons ev rest ih =>
    intro st st' hI h
    rw [runEvents] at h
    split at h
    · cases h
    · rename_i st1 h1
      exact ih st1 st' (processEvent_inv hI h1) h

theorem stackInv_init (op : Options) : StackInv (initState op) := by
  refine ⟨fun id => ?_, fun id => ?_, fun id hid => ⟨?_, ?_, ?_⟩⟩ <;>
    simp [initState, countBegin, countEnd, countStack]

/-- C5: stack discipline over a full compilation: for every input event
sequence whose processing succeeds, the final open-node stack is empty
(the end-of-input production `p_haml_doc` pops every remaining entry from
the top down), and every node id receives exactly as many `end` events as
`begin` events, at most one of each. -/
theorem c5_stack_discipline (op : Options) (evs : List Ev) (st : PState)
    (h : runDoc op evs = .ok st) :
    st.to_close = [] ∧
    (∀ id, countBegin st.trace id = countEnd st.trace id) ∧
    (∀ id, countBegin st.trace id ≤ 1) := by
  unfold runDoc at h
  split at h
  · cases h
  · rename_i st1 h1
    have hI : StackInv st1 := runEvents_inv evs (initState op) st1 (stackInv_init op) h1
    obtain ⟨i1, i2, i3⟩ := hI
    unfold p_haml_doc at h
    obtain ⟨_, _, _, htc, _, hcb, hce⟩ :=
      popLoop_shape st1.to_close.length 0 st1 st (le_refl _) h
    have htake : st1.to_close.take (st1.to_close.length - 0) = st1.to_close := by
      simp
    refine ⟨?_, fun id => ?_, fun id => ?_⟩
    · rw [htc]
      simp
    · rw [hcb id, hce id, htake]
      have := i1 id
      omega
    · rw [hcb id]
      exact i2 id

theorem c5_witness :
    ∃ st, runDoc {} [⟨(1, "x"), .content "hi", 0⟩, ⟨(2, "y"), .content "there", 0⟩]
        = .ok st ∧ st.to_close = [] := by
  obtain ⟨st, hE⟩ : ∃ st,
      runDoc {} [⟨(1, "x"), .content "hi", 0⟩, ⟨(2, "y"), .content "there", 0⟩]
        = .ok st := ⟨_, rfl⟩
  exact ⟨st, hE, (c5_stack_discipline _ _ _ hE).1⟩
